import Mathlib

/-!
Verification of the claude-monitor native host (src/native-host/claude_monitor_host.cjs,
second revision with reset detection, and src/native-host/backfill-resets.cjs).

Modelling conventions, used throughout:

* Timestamps.  The host stores timestamps as canonical ISO-8601 strings
  (`toISOString`) and compares them with SQL string comparison; canonical ISO
  strings compare exactly like their millisecond epoch values, and all date
  arithmetic in the host goes through `Date.getTime()` milliseconds.  The
  embedding therefore represents every timestamp as an `Int` of epoch
  milliseconds.
* Time zone.  `setHours`, `getDay` and `setDate` act in the host's local time
  zone; the embedding fixes the zero-offset (UTC) zone, so a calendar day is
  exactly 86400000 ms.
* SQL `NULL` is `Option.none`; `REAL` percentages are `Rat`; JavaScript falsy
  string checks (`!x`, `x || null`) treat both `none` and the empty string as
  absent.
* `JSON.stringify` of the incoming reading, stored verbatim in `raw_data`, is
  modelled by the derived `reprStr` serialisation (an executable stand-in for a
  platform builtin; no claim depends on its exact text).
* Each `better-sqlite3` prepared statement executed with `.run` commits on its
  own; a `db.transaction` body commits as a single unit.  Mutating message
  processing is therefore modelled as a list of write *batches*
  (`processMessageWrites`): one batch per standalone statement, one batch for a
  whole transaction.  The functional result of a message is the fold of those
  batches, and the claim about atomicity is about the batch structure.
-/

/-! ### Time model (JavaScript Date operations, zero-offset zone) -/

/-- Milliseconds per calendar day. -/
def msPerDay : Int := 86400000

/-- Model of `Date.prototype.getDay` (0 = Sunday .. 6 = Saturday) for an epoch
millisecond instant; epoch day 0 (1970-01-01) was a Thursday. -/
def getDayUTC (t : Int) : Int := (t / msPerDay + 4) % 7

/-- Midnight (00:00:00.000) of the calendar day containing `t`. -/
def startOfDayUTC (t : Int) : Int := msPerDay * (t / msPerDay)

/-- Milliseconds since midnight described by a wall-clock hour and minute. -/
def wallClockMs (hour minute : Nat) : Int := ((hour * 3600 + minute * 60) * 1000 : Int)

/-- Model of `d.setHours(hour, minute, 0, 0)`: same calendar day as `t`, at the
given wall-clock time (out-of-range hours roll over, as in JavaScript). -/
def setWallTimeUTC (t : Int) (hour minute : Nat) : Int :=
  startOfDayUTC t + wallClockMs hour minute

/-! ### Character helpers shared by the regex embeddings -/

/-- JavaScript `\s` on the character set that can occur here. -/
def isSpaceChar (c : Char) : Bool :=
  c = ' ' ∨ c = '\t' ∨ c = '\n' ∨ c = '\r' ∨ c = Char.ofNat 11 ∨ c = Char.ofNat 12

/-- Numeric value of a decimal digit character. -/
def digitVal (c : Char) : Nat := c.toNat - 48

/-- Value of a digit string, most significant digit first (what
`parseInt(s, 10)` returns on a digit-only capture). -/
def digitsToNat (l : List Char) : Nat := l.foldl (fun n c => 10 * n + digitVal c) 0

/-- Case-insensitively consume the literal `pat` from the front of `s`,
returning the remainder on success. -/
def eatCI : List Char → List Char → Option (List Char)
  | [], s => some s
  | _ :: _, [] => none
  | p :: ps, c :: cs => if c.toLower = p.toLower then eatCI ps cs else none

/-- Regex `\s+`: one mandatory whitespace character then any further run. -/
def spaces1 (s : List Char) : Option (List Char) :=
  match s with
  | [] => none
  | c :: rest => if isSpaceChar c then some (rest.dropWhile isSpaceChar) else none

/-- Regex `(\d+)`: greedy digit run with its numeric value. -/
def digits1 (s : List Char) : Option (Nat × List Char) :=
  match s.takeWhile Char.isDigit with
  | [] => none
  | ds => some (digitsToNat ds, s.dropWhile Char.isDigit)

/-- Regex `s?` (case-insensitive optional plural suffix). -/
def optS (s : List Char) : List Char :=
  match s with
  | [] => []
  | c :: rest => if c.toLower = 's' then rest else c :: rest

def litIn : List Char := ['i', 'n']
def litHr : List Char := ['h', 'r']
def litHour : List Char := ['h', 'o', 'u', 'r']
def litMin : List Char := ['m', 'i', 'n']
def litDay : List Char := ['d', 'a', 'y']
def litReset : List Char := ['R', 'e', 's', 'e', 't']

/-! ### The relative reset-time regex

`/in\s+(\d+)\s*(?:hr|hour)s?\s*(?:(\d+)\s*min)?/i` from `parseResetTime`. -/

/-- Attempt the relative pattern at the start of `s`, returning the captured
hour and minute values (minute defaults to 0 when the optional group fails,
exactly as the regex leaves capture 2 undefined). -/
def matchRelativeAt (s : List Char) : Option (Nat × Nat) :=
  match eatCI litIn s with
  | none => none
  | some s1 =>
    match spaces1 s1 with
    | none => none
    | some s2 =>
      match digits1 s2 with
      | none => none
      | some (h, s3) =>
        let s4 := s3.dropWhile isSpaceChar
        match (eatCI litHr s4).or (eatCI litHour s4) with
        | none => none
        | some s5 =>
          let s6 := optS s5
          let s7 := s6.dropWhile isSpaceChar
          match digits1 s7 with
          | none => some (h, 0)
          | some (m, s8) =>
            let s9 := s8.dropWhile isSpaceChar
            match eatCI litMin s9 with
            | none => some (h, 0)
            | some _ => some (h, m)

/-- Leftmost match of the relative pattern (JavaScript `String.match` searches
every start position from the left). -/
def searchRelative : List Char → Option (Nat × Nat)
  | [] => none
  | c :: rest =>
    match matchRelativeAt (c :: rest) with
    | some r => some r
    | none => searchRelative rest

/-! ### The absolute reset-time regex

`/([A-Za-z]{3})\s+(\d{1,2}):(\d{2})\s*(AM|PM)/i` from `parseResetTime`. -/

structure AbsMatch where
  dayName : List Char
  hour : Nat
  minute : Nat
  isPM : Bool
deriving Repr, DecidableEq

/-- Regex `(\d{1,2}):` with its backtracking: greedily take two digits, fall
back to one, then require the colon. -/
def matchHourColon : List Char → Option (Nat × List Char)
  | a :: b :: c :: rest =>
    if a.isDigit then
      if b.isDigit then
        if c = ':' then some (10 * digitVal a + digitVal b, rest) else none
      else if b = ':' then some (digitVal a, c :: rest) else none
    else none
  | [a, b] => if a.isDigit ∧ b = ':' then some (digitVal a, []) else none
  | _ => none

/-- Regex `(\d{2})`: exactly two digits. -/
def matchTwoDigits : List Char → Option (Nat × List Char)
  | a :: b :: rest =>
    if a.isDigit ∧ b.isDigit then some (10 * digitVal a + digitVal b, rest) else none
  | _ => none

/-- Regex `(AM|PM)` with the `i` flag; returns whether the PM branch matched. -/
def matchAmPm : List Char → Option (Bool × List Char)
  | a :: b :: rest =>
    if b.toLower = 'm' then
      if a.toLower = 'a' then some (false, rest)
      else if a.toLower = 'p' then some (true, rest)
      else none
    else none
  | _ => none

/-- Attempt the absolute pattern at the start of `s`.  The weekday capture
keeps its original case (the later `dayMap` lookup is case-sensitive). -/
def matchAbsoluteAt (s : List Char) : Option AbsMatch :=
  match s with
  | c1 :: c2 :: c3 :: rest =>
    if c1.isAlpha ∧ c2.isAlpha ∧ c3.isAlpha then
      match spaces1 rest with
      | none => none
      | some r1 =>
        match matchHourColon r1 with
        | none => none
        | some (h, r2) =>
          match matchTwoDigits r2 with
          | none => none
          | some (m, r3) =>
            match matchAmPm (r3.dropWhile isSpaceChar) with
            | none => none
            | some (pm, _) => some ⟨[c1, c2, c3], h, m, pm⟩
    else none
  | _ => none

/-- Leftmost match of the absolute pattern. -/
def searchAbsolute : List Char → Option AbsMatch
  | [] => none
  | c :: rest =>
    match matchAbsoluteAt (c :: rest) with
    | some r => some r
    | none => searchAbsolute rest

/-- The host's case-sensitive `dayMap` object. -/
def weekdayNames : List (List Char × Int) :=
  [(['S', 'u', 'n'], 0), (['M', 'o', 'n'], 1), (['T', 'u', 'e'], 2), (['W', 'e', 'd'], 3),
   (['T', 'h', 'u'], 4), (['F', 'r', 'i'], 5), (['S', 'a', 't'], 6)]

def dayMapLookup (name : List Char) : Option Int :=
  (weekdayNames.find? (fun p => p.1 = name)).map (fun p => p.2)

/-- The 12-hour to 24-hour conversion of `parseResetTime` (two sequential
adjustments in the source, equivalent to this conditional). -/
def hourTo24 (isPM : Bool) (h : Nat) : Nat :=
  if isPM = true ∧ h ≠ 12 then h + 12
  else if isPM = false ∧ h = 12 then 0
  else h

/-- The absolute branch's rollover computation: wall time on the reference
day, advanced by `daysUntil` days exactly as in the source. -/
def absoluteNext (targetDay : Int) (hour minute : Nat) (ref : Int) : Int :=
  let resetTime := setWallTimeUTC ref hour minute
  let currentDay := getDayUTC ref
  let d0 := targetDay - currentDay
  let d1 := if d0 < 0 then d0 + 7 else d0
  let daysUntil := if d1 = 0 ∧ resetTime ≤ ref then 7 else d1
  resetTime + daysUntil * msPerDay

/-- `parseResetTime(resetStr, referenceTimestamp)` from both native-host
scripts (they are textually identical).  `none` models the `null` result. -/
def parseResetTime (resetStr : Option String) (ref : Int) : Option Int :=
  match resetStr with
  | none => none
  | some s =>
    if s = "" then none
    else
      match searchRelative s.data with
      | some (h, m) => some (ref + ((h * 60 + m) * 60 * 1000 : Int))
      | none =>
        match searchAbsolute s.data with
        | none => none
        | some am =>
          match dayMapLookup am.dayName with
          | none => none
          | some targetDay => some (absoluteNext targetDay (hourTo24 am.isPM am.hour) am.minute ref)

/-! ### Data model (tables `accounts` and `usage_history`) -/

/-- One row of `accounts`. -/
structure AccountRow where
  id : String
  accountName : Option String
  email : Option String
  plan : Option String
  lastUpdated : Int
  sortOrder : Int
deriving Repr, DecidableEq

/-- One row of `usage_history` (the auto-increment `id` carries no behaviour
the host observes and is omitted). -/
structure UsageRow where
  accountId : String
  timestamp : Int
  primaryPercent : Option Rat
  sessionPercent : Option Rat
  weeklyAllPercent : Option Rat
  weeklySonnetPercent : Option Rat
  sessionReset : Option String
  weeklyReset : Option String
  rawData : Option String
  isSynthetic : Bool
deriving Repr, DecidableEq

/-- Whole-database state owned by the host. -/
structure HostState where
  accounts : List AccountRow
  usage : List UsageRow
deriving Repr, DecidableEq

/-! ### Store queries and statements -/

/-- Greatest `sort_order` in `accounts` (`SELECT MAX(sort_order) FROM accounts`,
`none` on the empty table). -/
def maxSortOrder : List AccountRow → Option Int
  | [] => none
  | a :: rest =>
    match maxSortOrder rest with
    | none => some a.sortOrder
    | some m => some (max a.sortOrder m)

/-- The `COALESCE((SELECT MAX(sort_order) + 1 FROM accounts), 0)` expression of
the `upsertAccount` statement. -/
def nextSortOrder (db : List AccountRow) : Int :=
  match maxSortOrder db with
  | none => 0
  | some m => m + 1

/-- The `upsertAccount` prepared statement: `INSERT ... ON CONFLICT(id) DO
UPDATE SET email = COALESCE(excluded.email, accounts.email), plan =
COALESCE(excluded.plan, accounts.plan), last_updated = excluded.last_updated`.
`account_name` is absent from the update list, so it is set only on first
insert. -/
def upsertAccount (db : List AccountRow) (id : String) (accountName email plan : Option String)
    (ts : Int) : List AccountRow :=
  if (db.find? (fun a => a.id == id)).isSome then
    db.map (fun a =>
      if a.id == id then
        { a with email := email.or a.email, plan := plan.or a.plan, lastUpdated := ts }
      else a)
  else
    db ++ [{ id := id, accountName := accountName, email := email, plan := plan,
             lastUpdated := ts, sortOrder := nextSortOrder db }]

/-- Row with the greatest timestamp (`ORDER BY timestamp DESC LIMIT 1`).  SQL
leaves the choice among timestamp ties unspecified; this determinisation keeps
the later of two tied rows, and the theorems only rely on it when the maximum
is unique. -/
def latestOf : List UsageRow → Option UsageRow
  | [] => none
  | r :: rest =>
    match latestOf rest with
    | none => some r
    | some b => if b.timestamp < r.timestamp then some r else some b

/-- The `getLatestUsage` prepared statement. -/
def getLatestUsage (usage : List UsageRow) (aid : String) : Option UsageRow :=
  latestOf (usage.filter (fun r => r.accountId == aid))

/-- Stable insertion used to model SQL `ORDER BY` (stability stands in for
SQLite's unspecified tie order). -/
def insertBy (le : α → α → Bool) (x : α) : List α → List α
  | [] => [x]
  | y :: ys => if le x y then x :: y :: ys else y :: insertBy le x ys

def sortBy (le : α → α → Bool) : List α → List α
  | [] => []
  | x :: xs => insertBy le x (sortBy le xs)

/-- Comparison of `ORDER BY a.sort_order ASC, a.last_updated DESC`. -/
def accountsDisplayLe (a b : AccountRow) : Bool :=
  decide (a.sortOrder < b.sortOrder ∨ (a.sortOrder = b.sortOrder ∧ b.lastUpdated ≤ a.lastUpdated))

/-- The `getAllAccounts` prepared statement, without the `latest_percent`
annotation (added separately below). -/
def getAllAccounts (db : List AccountRow) : List AccountRow :=
  sortBy accountsDisplayLe db

/-- The correlated `latest_percent` subquery of `getAllAccounts`. -/
def latestPercentOf (usage : List UsageRow) (aid : String) : Option Rat :=
  (getLatestUsage usage aid).bind (fun r => r.primaryPercent)

/-- Comparison of `ORDER BY timestamp DESC`. -/
def historyLe (a b : UsageRow) : Bool :=
  decide (b.timestamp ≤ a.timestamp)

/-- The `getAccountHistory` prepared statement. -/
def getAccountHistory (usage : List UsageRow) (aid : String) (limit : Nat) : List UsageRow :=
  (sortBy historyLe (usage.filter (fun r => r.accountId == aid))).take limit

/-! ### Incoming reading payload and field extraction -/

/-- One entry of the optional `data.sections` array. -/
structure UsageSection where
  type : Option String
  percentUsed : Option Rat
  resetTime : Option String
deriving Repr, DecidableEq

/-- The `msg.data` object of a `USAGE_UPDATE` message.  JavaScript `undefined`
and `null` are both `none` (the host only distinguishes them through `??` and
truthiness, which treat them alike; the `=== null` guards in the sections loop
can tell them apart only after a section assigned `undefined`, an edge this
embedding collapses). -/
structure UsageData where
  timestamp : Option Int
  primaryPercent : Option Rat
  sessionPercent : Option Rat
  weeklyAllPercent : Option Rat
  weeklySonnetPercent : Option Rat
  sessionReset : Option String
  weeklyReset : Option String
  sections : Option (List UsageSection)
  rawText : Option String
  accountName : Option String
  email : Option String
  plan : Option String
deriving Repr, DecidableEq

/-- JavaScript string truthiness: `none` and the empty string are falsy. -/
def isFalsyStr (s : Option String) : Bool :=
  match s with
  | none => true
  | some x => x = ""

/-- JavaScript `x || null` on an optional string. -/
def falsyToNull (s : Option String) : Option String :=
  match s with
  | none => none
  | some x => if x = "" then none else some x

def strAllModels : String := "all_models"
def strSonnetOnly : String := "sonnet_only"

/-- The `for (const section of data.sections)` fallback loop. -/
def sectionsPass : List UsageSection → Option Rat → Option Rat → Option String →
    Option Rat × Option Rat × Option String
  | [], wAll, wSon, wReset => (wAll, wSon, wReset)
  | s :: rest, wAll, wSon, wReset =>
    if s.type == some strAllModels ∧ wAll = none then
      sectionsPass rest s.percentUsed wSon (if isFalsyStr wReset then s.resetTime else wReset)
    else if s.type == some strSonnetOnly ∧ wSon = none then
      sectionsPass rest wAll s.percentUsed wReset
    else
      sectionsPass rest wAll wSon wReset

/-! The session-reset fallback regex
`/Resets?\s+in\s+(\d+\s*(?:hr|hour|min|day)[^\n]*)/i` applied to
`data.rawText`. -/

/-- The unit alternation `(?:hr|hour|min|day)`, returning how many characters
it consumed together with the remainder. -/
def matchResetUnit (s : List Char) : Option (Nat × List Char) :=
  match eatCI litHr s with
  | some r => some (2, r)
  | none =>
    match eatCI litHour s with
    | some r => some (4, r)
    | none =>
      match eatCI litMin s with
      | some r => some (3, r)
      | none =>
        match eatCI litDay s with
        | some r => some (3, r)
        | none => none

/-- Attempt the session-reset pattern at the start of `s`, returning the
capture group (digits, spaces, unit and the rest of the line). -/
def matchSessionResetAt (s : List Char) : Option (List Char) :=
  match eatCI litReset s with
  | none => none
  | some s1 =>
    match spaces1 (optS s1) with
    | none => none
    | some s2 =>
      match eatCI litIn s2 with
      | none => none
      | some s3 =>
        match spaces1 s3 with
        | none => none
        | some s4 =>
          match s4.takeWhile Char.isDigit with
          | [] => none
          | ds =>
            let s5 := s4.dropWhile Char.isDigit
            let sp := s5.takeWhile isSpaceChar
            let s6 := s5.dropWhile isSpaceChar
            match matchResetUnit s6 with
            | none => none
            | some (len, rest) =>
              some (ds ++ sp ++ s6.take len ++ rest.takeWhile (fun c => ¬ c = '\n'))

def searchSessionReset : List Char → Option (List Char)
  | [] => none
  | c :: rest =>
    match matchSessionResetAt (c :: rest) with
    | some r => some r
    | none => searchSessionReset rest

/-- JavaScript `String.prototype.trim`. -/
def trimChars (l : List Char) : List Char :=
  ((l.dropWhile isSpaceChar).reverse.dropWhile isSpaceChar).reverse

def litInSp : List Char := ['i', 'n', ' ']

/-- Result of the field-extraction fallbacks at the top of the `USAGE_UPDATE`
branch. -/
structure ExtractedFields where
  sessionPercent : Option Rat
  weeklyAllPercent : Option Rat
  weeklySonnetPercent : Option Rat
  sessionReset : Option String
  weeklyReset : Option String
deriving Repr, DecidableEq

/-- Field extraction: flattened fields, then the sections fallback, then the
rawText session-reset fallback. -/
def extractFields (data : UsageData) : ExtractedFields :=
  let sessionPercent := data.sessionPercent.or data.primaryPercent
  let wAll0 := data.weeklyAllPercent
  let wSon0 := data.weeklySonnetPercent
  let wReset0 := data.weeklyReset
  let afterSections :=
    match data.sections with
    | some secs =>
      if wAll0 = none ∨ wSon0 = none then sectionsPass secs wAll0 wSon0 wReset0
      else (wAll0, wSon0, wReset0)
    | none => (wAll0, wSon0, wReset0)
  let sReset0 := data.sessionReset
  let sReset :=
    if isFalsyStr sReset0 then
      match data.rawText with
      | some raw =>
        if raw = "" then sReset0
        else
          match searchSessionReset raw.data with
          | some cap => some (String.mk (litInSp ++ trimChars cap))
          | none => sReset0
      | none => sReset0
    else sReset0
  { sessionPercent := sessionPercent, weeklyAllPercent := afterSections.1,
    weeklySonnetPercent := afterSections.2.1, sessionReset := sReset,
    weeklyReset := afterSections.2.2 }

/-! ### Messages, responses and write batches -/

/-- Decoded incoming message (`msg.type` dispatch). -/
inductive Msg where
  | usageUpdate (accountId : Option String) (data : UsageData)
  | getData
  | getHistory (accountId : Option String) (limit : Option Nat)
  | reorderAccount (accountId : Option String)
  | other
deriving Repr, DecidableEq

/-- One account object of the `GET_DATA` response. -/
structure AccountOut where
  id : String
  accountName : Option String
  email : Option String
  plan : Option String
  lastUpdated : Int
  latestPercent : Option Rat
deriving Repr, DecidableEq

/-- One message written by `sendMessage` (each is framed on the wire). -/
inductive HostResponse where
  | usageOk (accountId : String) (percent : Option Rat) (resetDetected : Bool)
  | dataOk (accounts : List AccountOut)
  | historyOk (history : List UsageRow)
  | reorderOk (accountId : String)
  | failure (error : String)
deriving Repr, DecidableEq

/-- One database write. -/
inductive DbWrite where
  | upsert (id : String) (accountName email plan : Option String) (timestamp : Int)
  | insertRow (row : UsageRow)
  | setSortOrder (order : Int) (id : String)
deriving Repr, DecidableEq

def applyWrite (st : HostState) : DbWrite → HostState
  | DbWrite.upsert id an em pl ts =>
    { st with accounts := upsertAccount st.accounts id an em pl ts }
  | DbWrite.insertRow r => { st with usage := st.usage ++ [r] }
  | DbWrite.setSortOrder ord id =>
    { st with accounts := st.accounts.map (fun a =>
        if a.id == id then { a with sortOrder := ord } else a) }

/-- Commit one atomic batch. -/
def applyBatch (st : HostState) (b : List DbWrite) : HostState :=
  b.foldl applyWrite st

def defaultAccountId : String := "default"

/-- `msg.accountId || 'default'`. -/
def accountIdOf (aid : Option String) : String :=
  (falsyToNull aid).getD defaultAccountId

/-- The `insertSyntheticPoint` prepared statement: reset-text columns and
`raw_data` are `NULL`, `is_synthetic` is 1. -/
def syntheticPoint (aid : String) (ts : Int) (p s w ws : Option Rat) : UsageRow :=
  { accountId := aid, timestamp := ts, primaryPercent := p, sessionPercent := s,
    weeklyAllPercent := w, weeklySonnetPercent := ws, sessionReset := none,
    weeklyReset := none, rawData := none, isSynthetic := true }

/-- The `USAGE_UPDATE` branch of `processMessage`: the upsert, the optional
synthetic pair, and the real insert, each `.run` its own batch; plus the single
response.  The previous-reading lookup runs between the upsert and the inserts
but only reads `usage_history`, which the upsert does not touch. -/
def usageUpdateWrites (st : HostState) (aid0 : Option String) (data : UsageData) (now : Int) :
    List (List DbWrite) × List HostResponse :=
  let accountId := accountIdOf aid0
  let timestamp := data.timestamp.getD now
  let f := extractFields data
  let upsertBatch : List DbWrite :=
    [DbWrite.upsert accountId (falsyToNull data.accountName) (falsyToNull data.email)
      (falsyToNull data.plan) timestamp]
  let det : Bool × List (List DbWrite) :=
    match getLatestUsage st.usage accountId, f.weeklyAllPercent with
    | some p, some np =>
      match p.weeklyAllPercent with
      | some pp =>
        if pp - np > 5 then
          (true,
            match parseResetTime p.weeklyReset p.timestamp with
            | some rt =>
              [[DbWrite.insertRow (syntheticPoint accountId rt p.primaryPercent
                  p.sessionPercent (some pp) p.weeklySonnetPercent)],
               [DbWrite.insertRow (syntheticPoint accountId (rt + 1000) (some 0) (some 0)
                  (some 0) (some 0))]]
            | none => [])
        else (false, [])
      | none => (false, [])
    | _, _ => (false, [])
  let realRow : UsageRow :=
    { accountId := accountId, timestamp := timestamp, primaryPercent := data.primaryPercent,
      sessionPercent := f.sessionPercent, weeklyAllPercent := f.weeklyAllPercent,
      weeklySonnetPercent := f.weeklySonnetPercent, sessionReset := f.sessionReset,
      weeklyReset := f.weeklyReset, rawData := some (reprStr data), isSynthetic := false }
  ([upsertBatch] ++ det.2 ++ [[DbWrite.insertRow realRow]],
   [HostResponse.usageOk accountId data.primaryPercent det.1])

def errAccountIdRequired : String := "accountId required"
def errAccountNotFound : String := "Account not found"
def errUnknownType : String := "Unknown message type"

/-- The `updateAccountSortOrder.run(index, account.id)` calls of the reorder
transaction, in `forEach` order. -/
def numberFrom (k : Int) : List AccountRow → List DbWrite
  | [] => []
  | a :: rest => DbWrite.setSortOrder k a.id :: numberFrom (k + 1) rest

/-- The `REORDER_ACCOUNT` branch: validation, display-order read, and one
transaction renumbering every account (a single batch). -/
def reorderWrites (st : HostState) (aid0 : Option String) :
    List (List DbWrite) × List HostResponse :=
  match falsyToNull aid0 with
  | none => ([], [HostResponse.failure errAccountIdRequired])
  | some accountId =>
    let accounts := getAllAccounts st.accounts
    let ti := accounts.findIdx (fun a => a.id == accountId)
    if h : ti < accounts.length then
      let target := accounts.get ⟨ti, h⟩
      let reordered := target :: (accounts.take ti ++ accounts.drop (ti + 1))
      ([numberFrom 0 reordered], [HostResponse.reorderOk accountId])
    else ([], [HostResponse.failure errAccountNotFound])

def accountOut (st : HostState) (a : AccountRow) : AccountOut :=
  { id := a.id, accountName := a.accountName, email := a.email, plan := a.plan,
    lastUpdated := a.lastUpdated, latestPercent := latestPercentOf st.usage a.id }

/-- `processMessage`, split into its committed write batches and the responses
it sends. -/
def processMessageWrites (st : HostState) (msg : Msg) (now : Int) :
    List (List DbWrite) × List HostResponse :=
  match msg with
  | Msg.usageUpdate aid0 data => usageUpdateWrites st aid0 data now
  | Msg.getData =>
    ([], [HostResponse.dataOk ((getAllAccounts st.accounts).map (accountOut st))])
  | Msg.getHistory aid0 limit0 =>
    let limit := match limit0 with
      | some n => if n = 0 then 100 else n
      | none => 100
    ([], [HostResponse.historyOk (getAccountHistory st.usage (accountIdOf aid0) limit)])
  | Msg.reorderAccount aid0 => reorderWrites st aid0
  | Msg.other => ([], [HostResponse.failure errUnknownType])

/-- Functional result of processing one message: the fold of its committed
batches, and the responses written. -/
def processMessage (st : HostState) (msg : Msg) (now : Int) : HostState × List HostResponse :=
  ((processMessageWrites st msg now).1.foldl applyBatch st, (processMessageWrites st msg now).2)

/-- Every database state observable at a commit boundary while processing
`msg` (the initial state, then the state after each committed batch). -/
def batchTrace (st : HostState) (msg : Msg) (now : Int) : List HostState :=
  List.scanl applyBatch st (processMessageWrites st msg now).1

/-! ### Native-messaging transport (`getMessage`, `sendMessage`, `main`)

Input is the sequence of `Buffer`s returned by `process.stdin.read()`, as
lists of byte values, followed by the `end` event. -/

/-- Accumulation state of `getMessage`'s `readable` handler. -/
structure RecvState where
  bytesRead : Nat
  lenBytes : List Nat
  messageLength : Option Nat
  payload : List Nat
  chunkCount : Nat
deriving Repr, DecidableEq

def initRecvState : RecvState :=
  { bytesRead := 0, lenBytes := [], messageLength := none, payload := [], chunkCount := 0 }

/-- `Buffer.readUInt32LE(0)` of the 4-byte length buffer. -/
def readUInt32LE (bs : List Nat) : Nat :=
  match bs with
  | [b0, b1, b2, b3] => b0 + 256 * b1 + 65536 * b2 + 16777216 * b3
  | _ => 0

/-- Process one chunk: fill the 4-byte length header first, then accumulate
payload chunks (`chunks.push` happens only for nonempty remainders while the
header completes, and unconditionally afterwards). -/
def recvChunk (st : RecvState) (chunk : List Nat) : RecvState :=
  match st.messageLength with
  | none =>
    let needed := min (4 - st.bytesRead) chunk.length
    let lenBytes := st.lenBytes ++ chunk.take needed
    let bytesRead := st.bytesRead + needed
    if 4 ≤ bytesRead then
      let extra := chunk.drop needed
      { bytesRead := bytesRead, lenBytes := lenBytes,
        messageLength := some (readUInt32LE lenBytes),
        payload := st.payload ++ extra,
        chunkCount := st.chunkCount + (if extra.isEmpty then 0 else 1) }
    else
      { st with bytesRead := bytesRead, lenBytes := lenBytes }
  | some _ => { st with payload := st.payload ++ chunk, chunkCount := st.chunkCount + 1 }

/-- The in-loop completion check: once the declared length is known and
satisfied, the promise settles with the payload truncated to that length. -/
def recvSettled (st : RecvState) : Option (List Nat) :=
  match st.messageLength with
  | some len => if len ≤ st.payload.length then some (st.payload.take len) else none
  | none => none

/-- Outcome of `getMessage`: either the promise settles with payload bytes
handed to `JSON.parse`, or it never settles (the `end` handler does nothing
when no payload chunk was ever pushed) and no response can be written. -/
inductive GetMessageResult where
  | settled (payload : List Nat)
  | neverSettles
deriving Repr, DecidableEq

def getMessageLoop (st : RecvState) : List (List Nat) → GetMessageResult
  | [] =>
    if 0 < st.chunkCount then GetMessageResult.settled st.payload
    else GetMessageResult.neverSettles
  | c :: rest =>
    let st1 := recvChunk st c
    match recvSettled st1 with
    | some payload => GetMessageResult.settled payload
    | none => getMessageLoop st1 rest

def getMessageRun (chunks : List (List Nat)) : GetMessageResult :=
  getMessageLoop initRecvState chunks

/-! A small JSON model standing in for the platform `JSON.parse` (restricted
to ASCII payloads, escape-free strings and decimal numbers; wire timestamps
appear as epoch-millisecond numbers, consistent with the global timestamp
convention).  Its exact extension is irrelevant to every claim; it exists so
that decoding is a real executable function. -/

inductive Json where
  | null
  | bool (b : Bool)
  | num (q : Rat)
  | str (s : String)
  | arr (xs : List Json)
  | obj (fields : List (String × Json))
deriving Repr

def isJsonWs (c : Char) : Bool :=
  c = ' ' ∨ c = '\t' ∨ c = '\n' ∨ c = '\r'

def skipWsJ (s : List Char) : List Char := s.dropWhile isJsonWs

/-- Consume an exact literal. -/
def eatExact : List Char → List Char → Option (List Char)
  | [], s => some s
  | _ :: _, [] => none
  | p :: ps, c :: cs => if c = p then eatExact ps cs else none

/-- Parse a string body after the opening quote (escape-free subset). -/
def parseJStr (s : List Char) : Option (String × List Char) :=
  let body := s.takeWhile (fun c => ¬ c = '"' ∧ ¬ c = '\\')
  match s.drop body.length with
  | '"' :: rest => some (String.mk body, rest)
  | _ => none

/-- Parse an optionally signed decimal number. -/
def parseJNum (s : List Char) : Option (Rat × List Char) :=
  let (neg, s1) := match s with
    | '-' :: rest => (true, rest)
    | _ => (false, s)
  match s1.takeWhile Char.isDigit with
  | [] => none
  | ds =>
    let s2 := s1.dropWhile Char.isDigit
    let ipart : Rat := (digitsToNat ds : Nat)
    let (v, rest) :=
      match s2 with
      | '.' :: s3 =>
        match s3.takeWhile Char.isDigit with
        | [] => (ipart, '.' :: s3)
        | fs => (ipart + (digitsToNat fs : Rat) / ((10 : Rat) ^ fs.length),
                 s3.dropWhile Char.isDigit)
      | _ => (ipart, s2)
    some (if neg then -v else v, rest)

def litTrue : List Char := ['t', 'r', 'u', 'e']
def litFalse : List Char := ['f', 'a', 'l', 's', 'e']
def litNull : List Char := ['n', 'u', 'l', 'l']

mutual

def parseJson : Nat → List Char → Option (Json × List Char)
  | 0, _ => none
  | fuel + 1, s =>
    match skipWsJ s with
    | [] => none
    | c :: rest =>
      if c = '{' then
        match skipWsJ rest with
        | '}' :: r2 => some (Json.obj [], r2)
        | r1 => (parseJMembers fuel r1).map (fun p => (Json.obj p.1, p.2))
      else if c = '[' then
        match skipWsJ rest with
        | ']' :: r2 => some (Json.arr [], r2)
        | r1 => (parseJItems fuel r1).map (fun p => (Json.arr p.1, p.2))
      else if c = '"' then
        (parseJStr rest).map (fun p => (Json.str p.1, p.2))
      else
        match eatExact litTrue (c :: rest) with
        | some r => some (Json.bool true, r)
        | none =>
          match eatExact litFalse (c :: rest) with
          | some r => some (Json.bool false, r)
          | none =>
            match eatExact litNull (c :: rest) with
            | some r => some (Json.null, r)
            | none => (parseJNum (c :: rest)).map (fun p => (Json.num p.1, p.2))

def parseJMembers : Nat → List Char → Option (List (String × Json) × List Char)
  | 0, _ => none
  | fuel + 1, s =>
    match skipWsJ s with
    | '"' :: r1 =>
      match parseJStr r1 with
      | none => none
      | some (key, r2) =>
        match skipWsJ r2 with
        | ':' :: r3 =>
          match parseJson fuel r3 with
          | none => none
          | some (v, r4) =>
            match skipWsJ r4 with
            | ',' :: r5 =>
              (parseJMembers fuel r5).map (fun p => ((key, v) :: p.1, p.2))
            | '}' :: r5 => some ([(key, v)], r5)
            | _ => none
        | _ => none
    | _ => none

def parseJItems : Nat → List Char → Option (List Json × List Char)
  | 0, _ => none
  | fuel + 1, s =>
    match parseJson fuel s with
    | none => none
    | some (v, r1) =>
      match skipWsJ r1 with
      | ',' :: r2 => (parseJItems fuel r2).map (fun p => (v :: p.1, p.2))
      | ']' :: r2 => some ([v], r2)
      | _ => none

end

/-- Model of `JSON.parse` over the subset: the whole input must be consumed. -/
def jsonParse (s : List Char) : Option Json :=
  match parseJson (s.length + 1) s with
  | some (v, rest) => if (skipWsJ rest).isEmpty then some v else none
  | none => none

def keyType : String := "type"
def keyAccountId : String := "accountId"
def keyData : String := "data"
def keyLimit : String := "limit"
def keyTimestamp : String := "timestamp"
def keyPrimaryPercent : String := "primaryPercent"
def keySessionPercent : String := "sessionPercent"
def keyWeeklyAllPercent : String := "weeklyAllPercent"
def keyWeeklySonnetPercent : String := "weeklySonnetPercent"
def keySessionReset : String := "sessionReset"
def keyWeeklyReset : String := "weeklyReset"
def keySections : String := "sections"
def keyRawText : String := "rawText"
def keyAccountName : String := "accountName"
def keyEmail : String := "email"
def keyPlan : String := "plan"
def keyPercentUsed : String := "percentUsed"
def keyResetTime : String := "resetTime"
def strUsageUpdate : String := "USAGE_UPDATE"
def strGetData : String := "GET_DATA"
def strGetHistory : String := "GET_HISTORY"
def strReorderAccount : String := "REORDER_ACCOUNT"

def jGet (fields : List (String × Json)) (key : String) : Option Json :=
  (fields.find? (fun p => p.1 == key)).map (fun p => p.2)

def jStr? : Option Json → Option String
  | some (Json.str s) => some s
  | _ => none

def jNum? : Option Json → Option Rat
  | some (Json.num q) => some q
  | _ => none

def jInt? (j : Option Json) : Option Int :=
  match jNum? j with
  | some q => if q.den = 1 then some q.num else none
  | none => none

def jNat? (j : Option Json) : Option Nat :=
  match jInt? j with
  | some n => if 0 ≤ n then some n.toNat else none
  | none => none

def toUsageSection (j : Json) : UsageSection :=
  match j with
  | Json.obj fields =>
    { type := jStr? (jGet fields keyType), percentUsed := jNum? (jGet fields keyPercentUsed),
      resetTime := jStr? (jGet fields keyResetTime) }
  | _ => { type := none, percentUsed := none, resetTime := none }

def toUsageData (j : Option Json) : UsageData :=
  match j with
  | some (Json.obj fields) =>
    { timestamp := jInt? (jGet fields keyTimestamp),
      primaryPercent := jNum? (jGet fields keyPrimaryPercent),
      sessionPercent := jNum? (jGet fields keySessionPercent),
      weeklyAllPercent := jNum? (jGet fields keyWeeklyAllPercent),
      weeklySonnetPercent := jNum? (jGet fields keyWeeklySonnetPercent),
      sessionReset := jStr? (jGet fields keySessionReset),
      weeklyReset := jStr? (jGet fields keyWeeklyReset),
      sections := match jGet fields keySections with
        | some (Json.arr xs) => some (xs.map toUsageSection)
        | _ => none,
      rawText := jStr? (jGet fields keyRawText),
      accountName := jStr? (jGet fields keyAccountName),
      email := jStr? (jGet fields keyEmail),
      plan := jStr? (jGet fields keyPlan) }
  | _ =>
    { timestamp := none, primaryPercent := none, sessionPercent := none,
      weeklyAllPercent := none, weeklySonnetPercent := none, sessionReset := none,
      weeklyReset := none, sections := none, rawText := none, accountName := none,
      email := none, plan := none }

/-- Shape of a parsed message (`msg.type` dispatch of `processMessage`). -/
def toMsg (j : Json) : Msg :=
  match j with
  | Json.obj fields =>
    match jStr? (jGet fields keyType) with
    | some t =>
      if t = strUsageUpdate then
        Msg.usageUpdate (jStr? (jGet fields keyAccountId)) (toUsageData (jGet fields keyData))
      else if t = strGetData then Msg.getData
      else if t = strGetHistory then
        Msg.getHistory (jStr? (jGet fields keyAccountId)) (jNat? (jGet fields keyLimit))
      else if t = strReorderAccount then Msg.reorderAccount (jStr? (jGet fields keyAccountId))
      else Msg.other
    | none => Msg.other
  | _ => Msg.other

/-- ASCII decoding of the payload (stand-in for `buffer.toString('utf8')`;
non-ASCII bytes make the later parse fail, as mangled UTF-8 would). -/
def bytesToChars? (bs : List Nat) : Option (List Char) :=
  if bs.all (fun b => b < 128) then some (bs.map (fun b => Char.ofNat b)) else none

/-- `JSON.parse` plus message-shape reading; `none` is the rejected promise. -/
def decodeMsg (bytes : List Nat) : Option Msg :=
  match bytesToChars? bytes with
  | none => none
  | some cs => (jsonParse cs).map toMsg

/-- Error text of the caught parse exception (`e.message`; the exact platform
text is irrelevant, only that a failure response is written). -/
def errParse : String := "Unexpected token in JSON"

/-- The `main` function: await `getMessage`, process, catch into a failure
response.  When the promise never settles nothing is ever written. -/
def hostMain (st : HostState) (chunks : List (List Nat)) (now : Int) :
    HostState × List HostResponse :=
  match getMessageRun chunks with
  | GetMessageResult.neverSettles => (st, [])
  | GetMessageResult.settled bytes =>
    match decodeMsg bytes with
    | none => (st, [HostResponse.failure errParse])
    | some msg => processMessage st msg now

/-! ### The offline backfill pass (backfill-resets.cjs) -/

/-- Comparison of `ORDER BY account_id, timestamp ASC`. -/
def backfillKeyLe (a b : UsageRow) : Bool :=
  decide (a.accountId < b.accountId ∨ (a.accountId = b.accountId ∧ a.timestamp ≤ b.timestamp))

/-- The readings query: `WHERE is_synthetic = 0 OR is_synthetic IS NULL ORDER
BY account_id, timestamp ASC`. -/
def backfillScan (db : List UsageRow) : List UsageRow :=
  sortBy backfillKeyLe (db.filter (fun r => r.isSynthetic == false))

/-- The idempotence guard: synthetic points for the account with timestamp
`BETWEEN resetTime - 60s AND resetTime + 60s` (inclusive). -/
def hasSyntheticNear (db : List UsageRow) (aid : String) (rt : Int) : Bool :=
  db.any (fun r => r.accountId == aid && r.isSynthetic &&
    decide (rt - 60000 ≤ r.timestamp) && decide (r.timestamp ≤ rt + 60000))

/-- The guarded insertion of the two synthetic points (innermost part of the
backfill loop body, factored out for the proofs). -/
def backfillInsertPair (db : List UsageRow) (prev curr : UsageRow) (pp : Rat) (rt : Int) :
    List UsageRow × Nat :=
  if hasSyntheticNear db curr.accountId rt then (db, 0)
  else
    (db ++ [syntheticPoint curr.accountId rt prev.primaryPercent prev.sessionPercent
              (some pp) prev.weeklySonnetPercent,
            syntheticPoint curr.accountId (rt + 1000) (some 0) (some 0) (some 0) (some 0)],
     2)

/-- The drop test and reset-time computation of the backfill loop body. -/
def backfillDetect (db : List UsageRow) (prev curr : UsageRow) (pp cp : Rat) :
    List UsageRow × Nat :=
  if pp - cp > 5 then
    match parseResetTime prev.weeklyReset prev.timestamp with
    | some rt => backfillInsertPair db prev curr pp rt
    | none => (db, 0)
  else (db, 0)

/-- The body of the backfill loop for one consecutive pair, returning the new
table and the number of rows inserted. -/
def backfillStep (db : List UsageRow) (prev curr : UsageRow) : List UsageRow × Nat :=
  if prev.accountId == curr.accountId then
    match prev.weeklyAllPercent, curr.weeklyAllPercent with
    | some pp, some cp => backfillDetect db prev curr pp cp
    | _, _ => (db, 0)
  else (db, 0)

/-- The `for (const curr of readings)` loop with its running `prev`. -/
def backfillLoop (db : List UsageRow) (prev : Option UsageRow) :
    List UsageRow → List UsageRow × Nat
  | [] => (db, 0)
  | c :: rest =>
    match prev with
    | none => backfillLoop db (some c) rest
    | some p =>
      let s := backfillStep db p c
      let r := backfillLoop s.1 (some c) rest
      (r.1, s.2 + r.2)

/-- One whole run of backfill-resets.cjs over the table: the resulting table
and the `syntheticCount` it reports. -/
def backfillRun (db : List UsageRow) : List UsageRow × Nat :=
  backfillLoop db none (backfillScan db)

/-! ### Spec-side constructions used to state the claims -/

/-- Decimal digit character. -/
def digitChar (n : Nat) : Char := Char.ofNat (48 + n)

/-- Canonical decimal rendering, structurally recursive on a fuel argument so
that it reduces in the kernel (the fuel is always sufficient below). -/
def renderNatAux : Nat → Nat → List Char
  | 0, n => [digitChar n]
  | fuel + 1, n =>
    if n < 10 then [digitChar n] else renderNatAux fuel (n / 10) ++ [digitChar (n % 10)]

/-- Canonical decimal rendering of a natural number. -/
def renderNat (n : Nat) : List Char := renderNatAux n n

/-- Two-digit zero-padded rendering (for `n < 100`). -/
def render2 (n : Nat) : List Char := [digitChar (n / 10), digitChar (n % 10)]

/-- A string of the relative reset grammar `in H hr[s] [M min]`. -/
def mkRelativeStr (h m : Nat) (plural withMin : Bool) : String :=
  String.mk (litIn ++ [' '] ++ renderNat h ++ [' '] ++ litHr ++
    (if plural then ['s'] else []) ++
    (if withMin then [' '] ++ renderNat m ++ [' '] ++ litMin else []))

/-- Canonical three-letter weekday name, 0 = Sun .. 6 = Sat. -/
def weekdayName (w : Nat) : List Char :=
  ((weekdayNames.get? w).map (fun p => p.1)).getD []

def ampmChars (pm : Bool) : List Char := if pm then ['P', 'M'] else ['A', 'M']

/-- A string of the absolute reset grammar `<Weekday> HH:MM AM|PM` (hour
zero-padded when `pad` is set, minute always two digits). -/
def mkAbsoluteStr (w : Nat) (pad : Bool) (h12 minute : Nat) (pm : Bool) : String :=
  String.mk (weekdayName w ++ [' '] ++ (if pad then render2 h12 else renderNat h12) ++
    [':'] ++ render2 minute ++ [' '] ++ ampmChars pm)

/-- The `resetDetected` flag of a single `USAGE_UPDATE` response. -/
def resetFlagOf (rs : List HostResponse) : Option Bool :=
  match rs with
  | [HostResponse.usageOk _ _ b] => some b
  | _ => none

/-- Number of synthetic rows in a state. -/
def countSynthetic (s : HostState) : Nat :=
  (s.usage.filter (fun r => r.isSynthetic)).length


/-! ### Concrete fixtures used by witnesses and counterexamples -/

def strA1 : String := "a1"
def strNamed : String := "Named"
def strOldMail : String := "old-mail"
def strNewMail : String := "new-mail"
def strIn1hr : String := "in 1 hr"
def strIn2hr30 : String := "in 2 hr 30 min"
def strWed9am : String := "Wed 09:00 AM"

/-- Account row used by the upsert witness. -/
def rowA : AccountRow := ⟨strA1, some strNamed, some strOldMail, none, 1, 0⟩

/-- Expected result of the upsert witness. -/
def rowA2 : AccountRow := ⟨strA1, some strNamed, some strNewMail, none, 7, 0⟩

/-- A previous reading at 80 percent whose weekly reset text is relative. -/
def wPrevRow : UsageRow :=
  ⟨defaultAccountId, 0, some 30, some 20, some 80, some 40, none, some strIn1hr, none, false⟩

def wState : HostState := ⟨[], [wPrevRow]⟩

/-- A new reading at 10 percent (drop 70, a reset). -/
def wData : UsageData :=
  ⟨some 5000000, some 7, none, some 10, none, none, none, none, none, none, none, none⟩

/-- A previous reading at 50 percent with no reset text. -/
def row50 : UsageRow :=
  ⟨defaultAccountId, 0, none, none, some 50, none, none, none, none, false⟩

def state50 : HostState := ⟨[], [row50]⟩

/-- A new reading at 45 percent (drop exactly 5, not a reset). -/
def wData45 : UsageData :=
  ⟨some 10, none, none, some 45, none, none, none, none, none, none, none, none⟩

/-- A non-synthetic reading at 80 percent. -/
def rowReal80 : UsageRow :=
  ⟨defaultAccountId, 1000, some 30, some 20, some 80, some 40, none, none, none, false⟩

/-- A later synthetic zero point (as inserted after a detected reset). -/
def rowSynZero : UsageRow :=
  ⟨defaultAccountId, 2000, some 0, some 0, some 0, some 0, none, none, none, true⟩

def state10 : HostState := ⟨[], [rowReal80, rowSynZero]⟩

/-! ### Verification predicates for the backfill argument -/

/-- For a consecutive pair that detects a reset with a parseable reset text,
the idempotence guard finds an existing synthetic point in `db`. -/
def guardOK (db : List UsageRow) (p c : UsageRow) : Prop :=
  ∀ pp cp rt, p.accountId = c.accountId → p.weeklyAllPercent = some pp →
    c.weeklyAllPercent = some cp → pp - cp > 5 →
    parseResetTime p.weeklyReset p.timestamp = some rt →
    hasSyntheticNear db c.accountId rt = true

/-- `guardOK` along every consecutive pair the backfill loop visits. -/
def pairsOK (db : List UsageRow) : Option UsageRow → List UsageRow → Prop
  | _, [] => True
  | none, c :: rest => pairsOK db (some c) rest
  | some p, c :: rest => guardOK db p c ∧ pairsOK db (some c) rest

/-- Verification helper: the sort order that the write list `numberFrom k l`
assigns to the account id `x` (the position of `x`'s first occurrence in `l`,
counted from `k`). -/
def idxLookupFrom (k : Int) : List AccountRow → String → Option Int
  | [], _ => none
  | a :: rest, x => if a.id = x then some k else idxLookupFrom (k + 1) rest x

def strIdA : String := "A"
def strIdB : String := "B"
def strIdC : String := "C"
def strIdD : String := "D"

/-- Four accounts with sort orders 0..3 for the reorder example. -/
def stABCD : HostState :=
  ⟨[⟨strIdA, none, none, none, 0, 0⟩, ⟨strIdB, none, none, none, 0, 1⟩,
    ⟨strIdC, none, none, none, 0, 2⟩, ⟨strIdD, none, none, none, 0, 3⟩], []⟩

/-! ## Theorems -/

/-! ### Helper lemmas about the store -/

theorem find?_map_idPreserving (f : AccountRow → AccountRow) (hf : ∀ a, (f a).id = a.id)
    (db : List AccountRow) (id : String) :
    (db.map f).find? (fun a => a.id == id) = (db.find? (fun a => a.id == id)).map f := by
  induction db with
  | nil => rfl
  | cons a rest ih =>
    by_cases h : (a.id == id) = true
    · have h2 : ((f a).id == id) = true := by rw [hf a]; exact h
      simp [List.find?_cons_of_pos, h, h2]
    · have h2 : ((f a).id == id) = false := by rw [hf a]; simpa using h
      have h3 : (a.id == id) = false := by simpa using h
      simp only [List.map_cons]
      rw [List.find?_cons_of_neg _ (by simp [h2]), List.find?_cons_of_neg _ (by simp [h3])]
      exact ih

theorem maxSortOrder_of_ne_nil (db : List AccountRow) (h : db ≠ []) :
    ∃ m, maxSortOrder db = some m := by
  cases db with
  | nil => exact absurd rfl h
  | cons a rest =>
    cases hm : maxSortOrder rest with
    | none => exact ⟨a.sortOrder, by rw [maxSortOrder, hm]⟩
    | some m => exact ⟨max a.sortOrder m, by rw [maxSortOrder, hm]⟩

theorem maxSortOrder_le (db : List AccountRow) (m : Int) (hm : maxSortOrder db = some m) :
    ∀ a ∈ db, a.sortOrder ≤ m := by
  induction db generalizing m with
  | nil => simp [maxSortOrder] at hm
  | cons a rest ih =>
    intro b hb
    rw [maxSortOrder] at hm
    cases hr : maxSortOrder rest with
    | none =>
      rw [hr] at hm
      simp only [Option.some.injEq] at hm
      rcases List.mem_cons.mp hb with hba | hbr
      · rw [hba]; omega
      · cases rest with
        | nil => simp at hbr
        | cons c r2 =>
          exfalso
          obtain ⟨m2, hm2⟩ := maxSortOrder_of_ne_nil (c :: r2) (by simp)
          rw [hm2] at hr; cases hr
    | some m2 =>
      rw [hr] at hm
      simp only [Option.some.injEq] at hm
      rcases List.mem_cons.mp hb with hba | hbr
      · have hle : a.sortOrder ≤ max a.sortOrder m2 := le_max_left _ _
        rw [hm] at hle
        rw [hba]; exact hle
      · have := ih m2 hr b hbr
        have h3 : m2 ≤ max a.sortOrder m2 := le_max_right _ _
        rw [hm] at h3
        omega

theorem maxSortOrder_attained (db : List AccountRow) (m : Int) (hm : maxSortOrder db = some m) :
    ∃ a ∈ db, a.sortOrder = m := by
  induction db generalizing m with
  | nil => simp [maxSortOrder] at hm
  | cons a rest ih =>
    rw [maxSortOrder] at hm
    cases hr : maxSortOrder rest with
    | none =>
      rw [hr] at hm
      simp only [Option.some.injEq] at hm
      exact ⟨a, List.mem_cons_self _ _, hm⟩
    | some m2 =>
      rw [hr] at hm
      simp only [Option.some.injEq] at hm
      cases le_total a.sortOrder m2 with
      | inl h2 =>
        obtain ⟨b, hb, hbm⟩ := ih m2 hr
        rw [max_eq_right h2] at hm
        exact ⟨b, List.mem_cons_of_mem _ hb, by omega⟩
      | inr h2 =>
        rw [max_eq_left h2] at hm
        exact ⟨a, List.mem_cons_self _ _, hm⟩

/-- C5.  `upsertAccount` on an existing id overwrites `email`/`plan` only with
non-null values, sets `lastUpdated` unconditionally and leaves `accountName`
untouched (so a null `accountName` never erases a stored one); on a fresh id it
appends a row whose `sortOrder` is one more than the greatest existing
`sortOrder`, or 0 when the table is empty. -/
theorem upsertAccountFields (db : List AccountRow) (id : String)
    (an em pl : Option String) (ts : Int) :
    (∀ old, db.find? (fun a => a.id == id) = some old →
      (upsertAccount db id an em pl ts).find? (fun a => a.id == id) =
        some ⟨old.id, old.accountName,
          (match em with | some e => some e | none => old.email),
          (match pl with | some q => some q | none => old.plan),
          ts, old.sortOrder⟩) ∧
    (db.find? (fun a => a.id == id) = none →
      ∃ so, upsertAccount db id an em pl ts = db ++ [⟨id, an, em, pl, ts, so⟩] ∧
        (db = [] → so = 0) ∧
        (∀ a ∈ db, a.sortOrder < so) ∧
        (db ≠ [] → ∃ a ∈ db, so = a.sortOrder + 1)) := by
  constructor
  · intro old hold
    have hsome : (db.find? (fun a => a.id == id)).isSome := by rw [hold]; rfl
    rw [upsertAccount, if_pos hsome]
    have hf : ∀ (a : AccountRow),
        ((fun (a : AccountRow) => if a.id == id then
          { a with email := em.or a.email, plan := pl.or a.plan, lastUpdated := ts }
        else a) a).id = a.id := by
      intro a
      by_cases h : (a.id == id) = true <;> simp [h]
    rw [find?_map_idPreserving _ hf db id, hold]
    have hp : (old.id == id) = true := by
      have h2 := List.find?_some hold
      simpa using h2
    simp only [Option.map_some']
    rw [if_pos hp]
    cases em <;> cases pl <;> rfl
  · intro hnone
    have hsome : ¬ (db.find? (fun a => a.id == id)).isSome := by rw [hnone]; simp
    rw [upsertAccount, if_neg hsome]
    refine ⟨nextSortOrder db, rfl, ?_, ?_, ?_⟩
    · intro h; subst h; rfl
    · intro a ha
      have hne : db ≠ [] := by intro h; subst h; simp at ha
      obtain ⟨m, hm⟩ := maxSortOrder_of_ne_nil db hne
      have hle := maxSortOrder_le db m hm a ha
      have hns : nextSortOrder db = m + 1 := by rw [nextSortOrder, hm]
      omega
    · intro hne
      obtain ⟨m, hm⟩ := maxSortOrder_of_ne_nil db hne
      obtain ⟨a, ha, ham⟩ := maxSortOrder_attained db m hm
      have hns : nextSortOrder db = m + 1 := by rw [nextSortOrder, hm]
      exact ⟨a, ha, by omega⟩

/-- Witness for C5: on an existing account, a null `accountName` does not erase
the stored name while a non-null `email` overwrites the stored one. -/
theorem upsertAccountFieldsWitness :
    (([rowA] : List AccountRow).find? (fun a => a.id == strA1) = some rowA) ∧
    (upsertAccount [rowA] strA1 none (some strNewMail) none 7).find?
      (fun a => a.id == strA1) = some rowA2 := by
  refine ⟨by decide, ?_⟩
  exact (upsertAccountFields [rowA] strA1 none (some strNewMail) none 7).1 rowA (by decide)

/-! ### C1: the reset-detection threshold -/

/-- C1.  In the live `USAGE_UPDATE` path, when a previous reading exists and
both its and the new reading's `weeklyAllPercent` are present, the response's
`resetDetected` flag is exactly the strict comparison `prev - new > 5`; a drop
of exactly 5 is not a reset. -/
theorem resetThresholdStrict (st : HostState) (aid0 : Option String) (data : UsageData)
    (now : Int) (p : UsageRow) (pp np : Rat)
    (hprev : getLatestUsage st.usage (accountIdOf aid0) = some p)
    (hpp : p.weeklyAllPercent = some pp)
    (hnp : (extractFields data).weeklyAllPercent = some np) :
    resetFlagOf (processMessage st (Msg.usageUpdate aid0 data) now).2 =
      some (decide (pp - np > 5)) := by
  simp only [processMessage, processMessageWrites, usageUpdateWrites]
  rw [hprev, hnp]
  dsimp only
  rw [hpp]
  dsimp only
  by_cases h : pp - np > 5
  · rw [if_pos h]
    simp [resetFlagOf, h]
  · rw [if_neg h]
    simp [resetFlagOf, h]

/-- Witness for C1: a drop of exactly 5.0 (50 → 45) is reported as no reset. -/
theorem resetThresholdStrictWitness :
    getLatestUsage state50.usage (accountIdOf none) = some row50 ∧
    (extractFields wData45).weeklyAllPercent = some 45 ∧
    resetFlagOf (processMessage state50 (Msg.usageUpdate none wData45) 99).2 = some false := by
  refine ⟨by decide, by decide, ?_⟩
  have h := resetThresholdStrict state50 none wData45 99 row50 50 45
    (by decide) (by decide) (by decide)
  rw [h]
  have h5 : ¬ ((50 : Rat) - 45 > 5) := by norm_num
  simp [h5]

/-! ### C2: the synthetic pair and the unconditional real insert -/

/-- C2.  The real reading is always the last row appended; and when a reset is
detected and the previous reading's reset text parses, the run appends exactly
the two synthetic rows (old level at the reset instant, zeros one second
later, both synthetic with null reset texts and null raw data) followed by the
real reading. -/
theorem syntheticPairInsertion (st : HostState) (aid0 : Option String) (data : UsageData)
    (now : Int) :
    ((processMessage st (Msg.usageUpdate aid0 data) now).1.usage.getLast? =
      some ⟨accountIdOf aid0, data.timestamp.getD now, data.primaryPercent,
        (extractFields data).sessionPercent, (extractFields data).weeklyAllPercent,
        (extractFields data).weeklySonnetPercent, (extractFields data).sessionReset,
        (extractFields data).weeklyReset, some (reprStr data), false⟩) ∧
    (∀ p pp np rt,
      getLatestUsage st.usage (accountIdOf aid0) = some p →
      p.weeklyAllPercent = some pp →
      (extractFields data).weeklyAllPercent = some np →
      pp - np > 5 →
      parseResetTime p.weeklyReset p.timestamp = some rt →
      (processMessage st (Msg.usageUpdate aid0 data) now).1.usage =
        st.usage ++
          [⟨accountIdOf aid0, rt, p.primaryPercent, p.sessionPercent, some pp,
             p.weeklySonnetPercent, none, none, none, true⟩,
           ⟨accountIdOf aid0, rt + 1000, some 0, some 0, some 0, some 0, none, none, none,
             true⟩,
           ⟨accountIdOf aid0, data.timestamp.getD now, data.primaryPercent,
             (extractFields data).sessionPercent, (extractFields data).weeklyAllPercent,
             (extractFields data).weeklySonnetPercent, (extractFields data).sessionReset,
             (extractFields data).weeklyReset, some (reprStr data), false⟩]) := by
  constructor
  · simp only [processMessage, processMessageWrites, usageUpdateWrites]
    rw [List.foldl_append]
    generalize (List.foldl applyBatch st _) = mid
    simp [applyBatch, applyWrite]
  · intro p pp np rt hprev hpp hnp hdrop hrt
    simp only [processMessage, processMessageWrites, usageUpdateWrites]
    simp only [hprev, hnp]
    simp only [hpp]
    rw [if_pos hdrop]
    simp only [hrt]
    simp [applyBatch, applyWrite, syntheticPoint]

/-- Witness for C2: a detected reset with a parseable relative reset text
appends exactly the two synthetic rows and then the real reading. -/
theorem syntheticPairInsertionWitness :
    getLatestUsage wState.usage (accountIdOf none) = some wPrevRow ∧
    (80 : Rat) - 10 > 5 ∧
    parseResetTime wPrevRow.weeklyReset wPrevRow.timestamp = some 3600000 ∧
    (processMessage wState (Msg.usageUpdate none wData) 99).1.usage =
      wState.usage ++
        [⟨defaultAccountId, 3600000, some 30, some 20, some 80, some 40, none, none, none,
          true⟩,
         ⟨defaultAccountId, 3601000, some 0, some 0, some 0, some 0, none, none, none, true⟩,
         ⟨defaultAccountId, 5000000, some 7, some 7, some 10, none, none, none,
          some (reprStr wData), false⟩] := by
  refine ⟨by decide, by norm_num, by decide, ?_⟩
  have h := (syntheticPairInsertion wState none wData 99).2 wPrevRow 80 10 3600000
    (by decide) (by decide) (by decide) (by norm_num) (by decide)
  rw [h]
  rfl

/-! ### C9: transaction boundaries of the two multi-write operations -/

/-- Counterexample for C9.  Processing a reset-detected reading commits five
successive database states whose synthetic-row counts are 0, 0, 1, 2, 2: the
two synthetic points are separate statements (each its own implicit
transaction, there is no `db.transaction` around them), so the state after the
second batch persists exactly one of the two synthetic points — refuting the
claim that both multi-write operations run inside a single atomic
transaction. -/
theorem syntheticPairNotAtomic :
    (batchTrace wState (Msg.usageUpdate none wData) 99).map countSynthetic =
      [0, 0, 1, 2, 2] := by
  have hprev : getLatestUsage wState.usage (accountIdOf none) = some wPrevRow := by decide
  have hnp : (extractFields wData).weeklyAllPercent = some 10 := by decide
  have hpp : wPrevRow.weeklyAllPercent = some 80 := rfl
  have hdrop : (80 : Rat) - 10 > 5 := by norm_num
  have hrt : parseResetTime wPrevRow.weeklyReset wPrevRow.timestamp = some 3600000 := by decide
  simp only [batchTrace, processMessageWrites, usageUpdateWrites]
  simp only [hprev, hnp]
  simp only [hpp]
  rw [if_pos hdrop]
  simp only [hrt]
  rfl

/-- C9 as amended.  The reorder renumbering is wrapped in `db.transaction` and
is a single batch (at most one, counting the validation no-ops); the synthetic
pair is not: on a detected, parseable reset the `USAGE_UPDATE` path commits
four separate single-statement batches — upsert, first synthetic point, second
synthetic point, real reading — so the two synthetic inserts are not atomic. -/
theorem writeAtomicityShape :
    (∀ st aid0 now, ((processMessageWrites st (Msg.reorderAccount aid0) now).1).length ≤ 1) ∧
    (∀ st aid0 data now p pp np rt,
      getLatestUsage st.usage (accountIdOf aid0) = some p →
      p.weeklyAllPercent = some pp →
      (extractFields data).weeklyAllPercent = some np →
      pp - np > 5 →
      parseResetTime p.weeklyReset p.timestamp = some rt →
      (processMessageWrites st (Msg.usageUpdate aid0 data) now).1 =
        [[DbWrite.upsert (accountIdOf aid0) (falsyToNull data.accountName)
            (falsyToNull data.email) (falsyToNull data.plan) (data.timestamp.getD now)],
         [DbWrite.insertRow (syntheticPoint (accountIdOf aid0) rt p.primaryPercent
            p.sessionPercent (some pp) p.weeklySonnetPercent)],
         [DbWrite.insertRow (syntheticPoint (accountIdOf aid0) (rt + 1000) (some 0) (some 0)
            (some 0) (some 0))],
         [DbWrite.insertRow ⟨accountIdOf aid0, data.timestamp.getD now, data.primaryPercent,
            (extractFields data).sessionPercent, (extractFields data).weeklyAllPercent,
            (extractFields data).weeklySonnetPercent, (extractFields data).sessionReset,
            (extractFields data).weeklyReset, some (reprStr data), false⟩]]) := by
  constructor
  · intro st aid0 now
    cases h : falsyToNull aid0 with
    | none => simp [processMessageWrites, reorderWrites, h]
    | some a =>
      simp only [processMessageWrites, reorderWrites, h]
      split <;> simp
  · intro st aid0 data now p pp np rt hprev hpp hnp hdrop hrt
    simp only [processMessageWrites, usageUpdateWrites]
    simp only [hprev, hnp]
    simp only [hpp]
    rw [if_pos hdrop]
    simp only [hrt]
    rfl

/-- Witness for C9's amended statement at a concrete reset-detected input. -/
theorem writeAtomicityShapeWitness :
    ((processMessageWrites wState (Msg.reorderAccount none) 0).1).length ≤ 1 ∧
    (processMessageWrites wState (Msg.usageUpdate none wData) 99).1 =
      [[DbWrite.upsert defaultAccountId none none none 5000000],
       [DbWrite.insertRow ⟨defaultAccountId, 3600000, some 30, some 20, some 80, some 40,
          none, none, none, true⟩],
       [DbWrite.insertRow ⟨defaultAccountId, 3601000, some 0, some 0, some 0, some 0, none,
          none, none, true⟩],
       [DbWrite.insertRow ⟨defaultAccountId, 5000000, some 7, some 7, some 10, none, none,
          none, some (reprStr wData), false⟩]] := by
  refine ⟨writeAtomicityShape.1 wState none 0, ?_⟩
  rw [writeAtomicityShape.2 wState none wData 99 wPrevRow 80 10 3600000
    (by decide) (by decide) (by decide) (by norm_num) (by decide)]
  rfl

/-! ### Helper lemmas about `latestOf` and `sortBy` -/

theorem latestOf_mem (l : List UsageRow) (r : UsageRow) (h : latestOf l = some r) : r ∈ l := by
  induction l with
  | nil => simp [latestOf] at h
  | cons a rest ih =>
    rw [latestOf] at h
    cases hr : latestOf rest with
    | none =>
      simp only [hr, Option.some.injEq] at h
      rw [h]
      exact List.mem_cons_self _ _
    | some b =>
      simp only [hr] at h
      by_cases hlt : b.timestamp < a.timestamp
      · rw [if_pos hlt] at h
        simp only [Option.some.injEq] at h
        rw [h]
        exact List.mem_cons_self _ _
      · rw [if_neg hlt] at h
        simp only [Option.some.injEq] at h
        exact List.mem_cons_of_mem _ (ih (h ▸ hr))

theorem latestOf_strictMax (l : List UsageRow) (p : UsageRow) (hmem : p ∈ l)
    (hmax : ∀ r ∈ l, r ≠ p → r.timestamp < p.timestamp) : latestOf l = some p := by
  induction l with
  | nil => simp at hmem
  | cons a rest ih =>
    rcases List.mem_cons.mp hmem with hpa | hpr
    · subst hpa
      rw [latestOf]
      cases hr : latestOf rest with
      | none => simp only [hr]
      | some b =>
        have hbmem := latestOf_mem rest b hr
        simp only [hr]
        by_cases hbp : b = p
        · subst hbp
          rw [if_neg (by omega)]
        · have hlt := hmax b (List.mem_cons_of_mem _ hbmem) hbp
          rw [if_pos hlt]
    · have hane : a ≠ p → a.timestamp < p.timestamp := hmax a (List.mem_cons_self _ _)
      have hih := ih hpr (fun r hr hne => hmax r (List.mem_cons_of_mem _ hr) hne)
      rw [latestOf]
      simp only [hih]
      by_cases hap : a = p
      · rw [if_neg (by rw [hap]; omega)]
      · rw [if_neg (by have := hane hap; omega)]

theorem mem_insertBy (le : α → α → Bool) (x a : α) (l : List α) :
    a ∈ insertBy le x l ↔ a = x ∨ a ∈ l := by
  induction l with
  | nil => simp [insertBy]
  | cons y ys ih =>
    rw [insertBy]
    by_cases h : le x y
    · simp [h]
    · simp only [if_neg h, List.mem_cons, ih]
      tauto

theorem insertBy_perm (le : α → α → Bool) (x : α) (l : List α) :
    (insertBy le x l).Perm (x :: l) := by
  induction l with
  | nil => simp [insertBy]
  | cons y ys ih =>
    rw [insertBy]
    by_cases h : le x y
    · rw [if_pos h]
    · rw [if_neg h]
      exact (ih.cons y).trans (List.Perm.swap x y ys)

theorem sortBy_perm (le : α → α → Bool) (l : List α) : (sortBy le l).Perm l := by
  induction l with
  | nil => simp [sortBy]
  | cons x xs ih =>
    rw [sortBy]
    exact (insertBy_perm le x (sortBy le xs)).trans (ih.cons x)

theorem mem_sortBy (le : α → α → Bool) (a : α) (l : List α) :
    a ∈ sortBy le l ↔ a ∈ l :=
  (sortBy_perm le l).mem_iff

/-! ### C10: the live previous-reading lookup includes synthetic rows -/

/-- C10.  `getLatestUsage` has no `is_synthetic` filter: whenever the unique
most-recent row for the account is a synthetic point, the live path computes
the drop against that synthetic row's `weeklyAllPercent`; the offline
backfill, by contrast, scans only non-synthetic rows. -/
theorem livePrevIncludesSynthetic (st : HostState) (aid0 : Option String) (data : UsageData)
    (now : Int) (p : UsageRow) (pp np : Rat)
    (hmem : p ∈ st.usage) (haid : p.accountId = accountIdOf aid0)
    (hmax : ∀ r ∈ st.usage, r.accountId = accountIdOf aid0 → r ≠ p →
      r.timestamp < p.timestamp)
    (hsyn : p.isSynthetic = true)
    (hpp : p.weeklyAllPercent = some pp)
    (hnp : (extractFields data).weeklyAllPercent = some np) :
    resetFlagOf (processMessage st (Msg.usageUpdate aid0 data) now).2 =
      some (decide (pp - np > 5)) ∧
    (∀ db r, r ∈ backfillScan db → r.isSynthetic = false) := by
  constructor
  · have hmemf : p ∈ st.usage.filter (fun r => r.accountId == accountIdOf aid0) :=
      List.mem_filter.mpr ⟨hmem, by simp [haid]⟩
    have hmaxf : ∀ r ∈ st.usage.filter (fun r => r.accountId == accountIdOf aid0),
        r ≠ p → r.timestamp < p.timestamp := by
      intro r hr hne
      have := List.mem_filter.mp hr
      exact hmax r this.1 (by simpa using this.2) hne
    have hprev : getLatestUsage st.usage (accountIdOf aid0) = some p :=
      latestOf_strictMax _ p hmemf hmaxf
    simp only [processMessage, processMessageWrites, usageUpdateWrites]
    simp only [hprev, hnp]
    simp only [hpp]
    by_cases h : pp - np > 5
    · rw [if_pos h]
      simp [resetFlagOf, h]
    · rw [if_neg h]
      simp [resetFlagOf, h]
  · intro db r hr
    rw [backfillScan, mem_sortBy] at hr
    have := List.mem_filter.mp hr
    simpa using this.2

/-- Witness for C10: in a state whose latest row for the account is a
synthetic zero point, a new reading of 10 percent is compared against 0 (no
reset), although the last non-synthetic reading was at 80 percent. -/
theorem livePrevIncludesSyntheticWitness :
    rowSynZero.isSynthetic = true ∧
    rowReal80.weeklyAllPercent = some 80 ∧
    resetFlagOf (processMessage state10 (Msg.usageUpdate none wData) 99).2 =
      some false := by
  refine ⟨by decide, by decide, ?_⟩
  have h := livePrevIncludesSynthetic state10 none wData 99 rowSynZero 0 10
    (by decide) (by decide) (by decide) (by decide) (by decide) (by decide)
  rw [h.1]
  have h5 : ¬ ((0 : Rat) - 10 > 5) := by norm_num
  rw [decide_eq_false h5]

/-! ### Helper lemmas about digits, whitespace and renderings -/

theorem digitsToNat_concat (l : List Char) (c : Char) :
    digitsToNat (l ++ [c]) = 10 * digitsToNat l + digitVal c := by
  simp [digitsToNat, List.foldl_append]

theorem digitVal_digitChar (d : Nat) (h : d < 10) : digitVal (digitChar d) = d := by
  interval_cases d <;> decide

theorem digitChar_isDigit (d : Nat) (h : d < 10) : (digitChar d).isDigit = true := by
  interval_cases d <;> decide

theorem not_space_of_digit (c : Char) (hd : c.isDigit = true) : isSpaceChar c = false := by
  rw [isSpaceChar]
  apply decide_eq_false
  rintro (h1 | h1 | h1 | h1 | h1 | h1) <;> subst h1 <;> exact absurd hd (by decide)

theorem renderNatAux_spec (fuel : Nat) :
    ∀ n, n ≤ fuel → (∀ c ∈ renderNatAux fuel n, c.isDigit = true) ∧
      renderNatAux fuel n ≠ [] ∧ digitsToNat (renderNatAux fuel n) = n := by
  induction fuel with
  | zero =>
    intro n hn
    have hz : n = 0 := by omega
    subst hz
    refine ⟨?_, by simp [renderNatAux], by decide⟩
    intro c hc
    simp [renderNatAux] at hc
    subst hc
    decide
  | succ fuel ih =>
    intro n hn
    rw [renderNatAux]
    by_cases h10 : n < 10
    · rw [if_pos h10]
      refine ⟨?_, by simp, ?_⟩
      · intro c hc
        simp at hc
        subst hc
        exact digitChar_isDigit n h10
      · show digitsToNat [digitChar n] = n
        simp [digitsToNat, digitVal_digitChar n h10]
    · rw [if_neg h10]
      have hdiv : n / 10 ≤ fuel := by
        have := Nat.div_lt_self (show 0 < n by omega) (show 1 < 10 by omega)
        omega
      obtain ⟨hall, hne, hval⟩ := ih (n / 10) hdiv
      refine ⟨?_, by simp [hne], ?_⟩
      · intro c hc
        rcases List.mem_append.mp hc with hc | hc
        · exact hall c hc
        · simp at hc
          subst hc
          exact digitChar_isDigit _ (Nat.mod_lt _ (by omega))
      · rw [digitsToNat_concat, hval, digitVal_digitChar _ (Nat.mod_lt _ (by omega))]
        omega

theorem renderNat_digits (n : Nat) : ∀ c ∈ renderNat n, c.isDigit = true :=
  (renderNatAux_spec n n le_rfl).1

theorem renderNat_ne_nil (n : Nat) : renderNat n ≠ [] :=
  (renderNatAux_spec n n le_rfl).2.1

theorem digitsToNat_renderNat (n : Nat) : digitsToNat (renderNat n) = n :=
  (renderNatAux_spec n n le_rfl).2.2

theorem takeWhile_append_all (p : Char → Bool) (l1 l2 : List Char)
    (h1 : ∀ c ∈ l1, p c = true) (h2 : ∀ c, l2.head? = some c → p c = false) :
    (l1 ++ l2).takeWhile p = l1 := by
  induction l1 with
  | nil =>
    cases l2 with
    | nil => rfl
    | cons b bs => simp [List.takeWhile_cons, h2 b rfl]
  | cons a as ih =>
    simp only [List.cons_append, List.takeWhile_cons, h1 a (List.mem_cons_self _ _), if_true]
    rw [ih (fun c hc => h1 c (List.mem_cons_of_mem _ hc))]

theorem dropWhile_append_all (p : Char → Bool) (l1 l2 : List Char)
    (h1 : ∀ c ∈ l1, p c = true) (h2 : ∀ c, l2.head? = some c → p c = false) :
    (l1 ++ l2).dropWhile p = l2 := by
  induction l1 with
  | nil =>
    cases l2 with
    | nil => rfl
    | cons b bs => simp [List.dropWhile_cons, h2 b rfl]
  | cons a as ih =>
    simp only [List.cons_append, List.dropWhile_cons, h1 a (List.mem_cons_self _ _), if_true]
    exact ih (fun c hc => h1 c (List.mem_cons_of_mem _ hc))

theorem dropWhile_head_false (p : Char → Bool) (l : List Char)
    (h : ∀ c, l.head? = some c → p c = false) : l.dropWhile p = l := by
  cases l with
  | nil => rfl
  | cons a as => simp [List.dropWhile_cons, h a rfl]

theorem head_digit_of_all (l : List Char) (hall : ∀ c ∈ l, c.isDigit = true) :
    ∀ c, l.head? = some c → isSpaceChar c = false := by
  intro c hc
  cases l with
  | nil => simp at hc
  | cons a as =>
    simp at hc
    subst hc
    exact not_space_of_digit _ (hall _ (List.mem_cons_self _ _))

theorem digits1_append (ds rest : List Char) (hds : ∀ c ∈ ds, c.isDigit = true)
    (hne : ds ≠ []) (hrest : ∀ c, rest.head? = some c → c.isDigit = false) :
    digits1 (ds ++ rest) = some (digitsToNat ds, rest) := by
  unfold digits1
  rw [takeWhile_append_all _ _ _ hds hrest, dropWhile_append_all _ _ _ hds hrest]
  cases ds with
  | nil => exact absurd rfl hne
  | cons a as => rfl

/-! ### C3: relative reset-time strings -/

theorem head_append_digit (l1 l2 : List Char) (hne : l1 ≠ [])
    (hall : ∀ c ∈ l1, c.isDigit = true) :
    ∀ c, (l1 ++ l2).head? = some c → isSpaceChar c = false := by
  intro c hc
  cases l1 with
  | nil => exact absurd rfl hne
  | cons a as =>
    simp at hc
    subst hc
    exact not_space_of_digit _ (hall _ (List.mem_cons_self _ _))

theorem matchRelativeAt_stage (h : Nat) (t : List Char) :
    matchRelativeAt ('i' :: 'n' :: ' ' :: (renderNat h ++ (' ' :: 'h' :: 'r' :: t))) =
      (match digits1 ((optS t).dropWhile isSpaceChar) with
       | none => some (h, 0)
       | some (m, s8) =>
         match eatCI litMin (s8.dropWhile isSpaceChar) with
         | none => some (h, 0)
         | some _ => some (h, m)) := by
  rw [matchRelativeAt]
  have e1 : eatCI litIn ('i' :: 'n' :: ' ' :: (renderNat h ++ (' ' :: 'h' :: 'r' :: t))) =
      some (' ' :: (renderNat h ++ (' ' :: 'h' :: 'r' :: t))) := rfl
  simp only [e1]
  have e2 : spaces1 (' ' :: (renderNat h ++ (' ' :: 'h' :: 'r' :: t))) =
      some (renderNat h ++ (' ' :: 'h' :: 'r' :: t)) := by
    rw [spaces1]
    rw [if_pos (show isSpaceChar ' ' = true from rfl)]
    rw [dropWhile_head_false _ _
      (head_append_digit _ _ (renderNat_ne_nil h) (renderNat_digits h))]
  simp only [e2]
  have e3 : digits1 (renderNat h ++ (' ' :: 'h' :: 'r' :: t)) =
      some (h, ' ' :: 'h' :: 'r' :: t) := by
    rw [digits1_append _ _ (renderNat_digits h) (renderNat_ne_nil h)
      (by intro c hc; simp at hc; subst hc; decide), digitsToNat_renderNat]
  simp only [e3]
  have e4 : (' ' :: 'h' :: 'r' :: t).dropWhile isSpaceChar = 'h' :: 'r' :: t := rfl
  simp only [e4]
  have e5 : (eatCI litHr ('h' :: 'r' :: t)).or (eatCI litHour ('h' :: 'r' :: t)) = some t := by
    have e6 : eatCI litHr ('h' :: 'r' :: t) = some t := rfl
    rw [e6]
    rfl
  simp only [e5]

theorem matchRelativeAt_grammar (h m : Nat) (plural withMin : Bool) :
    matchRelativeAt ('i' :: 'n' :: ' ' :: (renderNat h ++ (' ' :: 'h' :: 'r' ::
      ((if plural then ['s'] else []) ++
       (if withMin then ' ' :: (renderNat m ++ [' ', 'm', 'i', 'n']) else []))))) =
      some (h, if withMin then m else 0) := by
  rw [matchRelativeAt_stage]
  have eMin : digits1 ((' ' :: (renderNat m ++ [' ', 'm', 'i', 'n'])).dropWhile isSpaceChar) =
      some (digitsToNat (renderNat m), [' ', 'm', 'i', 'n']) := by
    have e2 : (' ' :: (renderNat m ++ [' ', 'm', 'i', 'n'])).dropWhile isSpaceChar =
        renderNat m ++ [' ', 'm', 'i', 'n'] := by
      show (renderNat m ++ [' ', 'm', 'i', 'n']).dropWhile isSpaceChar = _
      exact dropWhile_head_false _ _
        (head_append_digit _ _ (renderNat_ne_nil m) (renderNat_digits m))
    rw [e2]
    exact digits1_append _ _ (renderNat_digits m) (renderNat_ne_nil m)
      (by intro c hc; simp at hc; subst hc; decide)
  cases plural <;> cases withMin <;>
    simp only [if_true, if_false, Bool.false_eq_true, List.nil_append, List.cons_append]
  · rfl
  · have e1 : optS (' ' :: (renderNat m ++ [' ', 'm', 'i', 'n'])) =
        ' ' :: (renderNat m ++ [' ', 'm', 'i', 'n']) := rfl
    simp only [e1, eMin, digitsToNat_renderNat]
    rfl
  · rfl
  · have e1 : optS ('s' :: (' ' :: (renderNat m ++ [' ', 'm', 'i', 'n']))) =
        ' ' :: (renderNat m ++ [' ', 'm', 'i', 'n']) := rfl
    simp only [e1, eMin, digitsToNat_renderNat]
    rfl

theorem mkRelativeStr_data (h m : Nat) (plural withMin : Bool) :
    (mkRelativeStr h m plural withMin).data =
      'i' :: 'n' :: ' ' :: (renderNat h ++ (' ' :: 'h' :: 'r' ::
        ((if plural then ['s'] else []) ++
         (if withMin then ' ' :: (renderNat m ++ [' ', 'm', 'i', 'n']) else [])))) := by
  show litIn ++ [' '] ++ renderNat h ++ [' '] ++ litHr ++ (if plural then ['s'] else []) ++
      (if withMin then [' '] ++ renderNat m ++ [' '] ++ litMin else []) = _
  cases plural <;> cases withMin <;> simp [litIn, litHr, litMin]

theorem mkRelativeStr_ne_empty (h m : Nat) (plural withMin : Bool) :
    mkRelativeStr h m plural withMin ≠ "" := by
  intro he
  have hd := congrArg String.data he
  rw [mkRelativeStr_data] at hd
  exact absurd hd (by simp)

/-- C3.  Every string of the relative grammar `in H hr[s] [M min]` (canonical
single-space rendering, with or without the plural `s` and the minute part)
parses to the reference instant plus `H` hours plus `M` minutes; in
particular, `"in 2 hr 30 min"` at reference `2024-01-01T00:00:00Z`
(1704067200000 ms) gives `2024-01-01T02:30:00Z` (1704076200000 ms). -/
theorem relativeResetParse :
    (∀ (h m : Nat) (plural withMin : Bool) (ref : Int),
      parseResetTime (some (mkRelativeStr h m plural withMin)) ref =
        some (ref + (h : Int) * 3600000 + (if withMin then (m : Int) else 0) * 60000)) ∧
    parseResetTime (some strIn2hr30) 1704067200000 = some 1704076200000 := by
  constructor
  · intro h m plural withMin ref
    rw [parseResetTime]
    rw [if_neg (mkRelativeStr_ne_empty h m plural withMin)]
    rw [mkRelativeStr_data]
    rw [searchRelative]
    simp only [matchRelativeAt_grammar h m plural withMin]
    cases withMin <;> simp only [if_true, if_false, Bool.false_eq_true] <;>
      push_cast <;> ring_nf
  · decide

/-! ### C4: absolute reset-time strings

First: the relative pattern finds no match inside a string of the absolute
grammar (its only case-insensitive `i` is the last letter of `Fri`, never
followed by `n`). -/

theorem toLower_of_digit (c : Char) (h : c.isDigit = true) : c.toLower = c := by
  simp only [Char.isDigit, Bool.and_eq_true, decide_eq_true_eq] at h
  have h2 : c.val.toNat ≤ 57 := by
    have h3 : c.val.toNat ≤ (57 : UInt32).toNat := h.2
    simpa using h3
  rw [Char.toLower, if_neg]
  simp only [Char.toNat]
  omega

theorem digit_toNat_le (c : Char) (h : c.isDigit = true) : c.toNat ≤ 57 := by
  simp only [Char.isDigit, Bool.and_eq_true, decide_eq_true_eq] at h
  have h3 : c.val.toNat ≤ (57 : UInt32).toNat := h.2
  simpa [Char.toNat] using h3

theorem digit_toLower_ne_i (c : Char) (h : c.isDigit = true) : ¬ c.toLower = 'i' := by
  rw [toLower_of_digit c h]
  intro he
  have := congrArg Char.toNat he
  have h2 := digit_toNat_le c h
  rw [show Char.toNat 'i' = 105 from rfl] at this
  omega

/-- The no-`in`-pair relation between adjacent characters. -/
theorem searchRelative_none_of_chain (s : List Char)
    (h : List.Chain' (fun a b => ¬(a.toLower = 'i' ∧ b.toLower = 'n')) s) :
    searchRelative s = none := by
  induction s with
  | nil => rfl
  | cons c rest ih =>
    rw [searchRelative]
    have hm : matchRelativeAt (c :: rest) = none := by
      cases rest with
      | nil =>
        rw [matchRelativeAt]
        have he : eatCI litIn [c] = none := by
          show (if c.toLower = 'i'.toLower then eatCI ['n'] [] else none) = none
          split <;> rfl
        rw [he]
      | cons d t =>
        have hcd := (List.chain'_cons.mp h).1
        rw [matchRelativeAt]
        have he : eatCI litIn (c :: d :: t) = none := by
          show (if c.toLower = 'i'.toLower then
            (if d.toLower = 'n'.toLower then eatCI [] t else none) else none) = none
          by_cases h1 : c.toLower = 'i'
          · rw [if_pos (by simpa using h1)]
            rw [if_neg]
            intro h2
            exact hcd ⟨h1, by simpa using h2⟩
          · rw [if_neg (by simpa using h1)]
        rw [he]
    simp only [hm]
    exact ih h.tail

theorem chainNoIN_of_fst (l : List Char) (h : ∀ a ∈ l, ¬ a.toLower = 'i') :
    List.Chain' (fun a b => ¬(a.toLower = 'i' ∧ b.toLower = 'n')) l := by
  induction l with
  | nil => exact List.chain'_nil
  | cons a rest ih =>
    cases rest with
    | nil => simp
    | cons b t =>
      rw [List.chain'_cons]
      refine ⟨fun hc => h a (List.mem_cons_self _ _) hc.1, ?_⟩
      exact ih (fun x hx => h x (List.mem_cons_of_mem _ hx))

theorem chainNoIN_abs (w : Nat) (hw : w < 7) (H M : List Char)
    (hH : ∀ c ∈ H, c.isDigit = true) (hM : ∀ c ∈ M, c.isDigit = true) (pm : Bool) :
    List.Chain' (fun a b => ¬(a.toLower = 'i' ∧ b.toLower = 'n'))
      (weekdayName w ++ ([' '] ++ (H ++ ([':'] ++ (M ++ ([' '] ++ ampmChars pm)))))) := by
  rw [List.chain'_append]
  refine ⟨by interval_cases w <;>
    simp [weekdayName, weekdayNames, List.chain'_cons, List.chain'_singleton],
    ?_, ?_⟩
  · rw [List.chain'_append]
    refine ⟨List.chain'_singleton _, ?_, ?_⟩
    · rw [List.chain'_append]
      refine ⟨chainNoIN_of_fst H (fun a ha => digit_toLower_ne_i a (hH a ha)), ?_, ?_⟩
      · rw [List.chain'_append]
        refine ⟨List.chain'_singleton _, ?_, ?_⟩
        · rw [List.chain'_append]
          refine ⟨chainNoIN_of_fst M (fun a ha => digit_toLower_ne_i a (hM a ha)), ?_, ?_⟩
          · rw [List.chain'_append]
            refine ⟨List.chain'_singleton _, by cases pm <;>
              simp [ampmChars, List.chain'_cons, List.chain'_singleton], ?_⟩
            intro x hx y hy
            simp at hx
            subst hx
            rintro ⟨hxi, _⟩
            exact absurd hxi (by decide)
          · intro x hx y hy
            have hxm := List.mem_of_mem_getLast? hx
            rintro ⟨hxi, _⟩
            exact digit_toLower_ne_i x (hM x hxm) hxi
        · intro x hx y hy
          simp at hx
          subst hx
          rintro ⟨hxi, _⟩
          exact absurd hxi (by decide)
      · intro x hx y hy
        have hxm := List.mem_of_mem_getLast? hx
        rintro ⟨hxi, _⟩
        exact digit_toLower_ne_i x (hH x hxm) hxi
    · intro x hx y hy
      simp at hx
      subst hx
      rintro ⟨hxi, _⟩
      exact absurd hxi (by decide)
  · intro x hx y hy
    simp at hy
    subst hy
    rintro ⟨_, hyn⟩
    exact absurd hyn (by decide)

theorem digitsToNat_single (a : Char) : digitsToNat [a] = digitVal a := by
  simp [digitsToNat]

theorem digitsToNat_pair (a b : Char) : digitsToNat [a, b] = 10 * digitVal a + digitVal b := by
  simp [digitsToNat]

theorem render2_digits (n : Nat) (h : n < 100) : ∀ c ∈ render2 n, c.isDigit = true := by
  intro c hc
  rw [render2] at hc
  rcases List.mem_pair.mp hc with hc | hc <;> subst hc
  · exact digitChar_isDigit _ (by omega)
  · exact digitChar_isDigit _ (Nat.mod_lt _ (by omega))

theorem digitsToNat_render2 (n : Nat) (h : n < 100) : digitsToNat (render2 n) = n := by
  rw [render2, digitsToNat_pair, digitVal_digitChar _ (by omega),
    digitVal_digitChar _ (Nat.mod_lt _ (by omega))]
  omega

theorem renderNatAux_small (fuel n : Nat) (h : n < 10) : renderNatAux fuel n = [digitChar n] := by
  cases fuel with
  | zero => rfl
  | succ f => rw [renderNatAux, if_pos h]

theorem renderNat_small (n : Nat) (h : n < 10) : renderNat n = [digitChar n] :=
  renderNatAux_small n n h

theorem renderNat_mid (n : Nat) (h10 : 10 ≤ n) (h100 : n < 100) : renderNat n = render2 n := by
  rw [renderNat]
  cases hn : n with
  | zero => omega
  | succ k =>
    rw [renderNatAux, if_neg (by omega)]
    rw [renderNatAux_small _ _ (by omega)]
    rfl

theorem matchHourColon_one (a : Char) (rest : List Char) (ha : a.isDigit = true) :
    matchHourColon (a :: ':' :: rest) = some (digitVal a, rest) := by
  cases rest with
  | nil => simp [matchHourColon, ha]
  | cons c t => simp [matchHourColon, ha]

theorem matchHourColon_two (a b : Char) (rest : List Char) (ha : a.isDigit = true)
    (hb : b.isDigit = true) :
    matchHourColon (a :: b :: ':' :: rest) = some (10 * digitVal a + digitVal b, rest) := by
  simp [matchHourColon, ha, hb]

theorem matchTwoDigits_eq (a b : Char) (rest : List Char) (ha : a.isDigit = true)
    (hb : b.isDigit = true) :
    matchTwoDigits (a :: b :: rest) = some (10 * digitVal a + digitVal b, rest) := by
  simp [matchTwoDigits, ha, hb]

theorem matchAbsoluteAt_grammar (c1 c2 c3 : Char) (h1 : c1.isAlpha = true)
    (h2 : c2.isAlpha = true) (h3 : c3.isAlpha = true) (hc : List Char)
    (hform : (∃ a, hc = [a] ∧ a.isDigit = true) ∨
      (∃ a b, hc = [a, b] ∧ a.isDigit = true ∧ b.isDigit = true))
    (minute : Nat) (hm : minute < 100) (pm : Bool) :
    matchAbsoluteAt (c1 :: c2 :: c3 :: ' ' :: (hc ++ (':' ::
        (render2 minute ++ (' ' :: ampmChars pm))))) =
      some ⟨[c1, c2, c3], digitsToNat hc, minute, pm⟩ := by
  rw [matchAbsoluteAt]
  rw [if_pos ⟨h1, h2, h3⟩]
  have hdig : ∀ c ∈ hc, c.isDigit = true := by
    rcases hform with ⟨a, rfl, ha⟩ | ⟨a, b, rfl, ha, hb⟩
    · intro c hcm
      simp at hcm
      subst hcm
      exact ha
    · intro c hcm
      rcases List.mem_pair.mp hcm with hcm | hcm <;> subst hcm
      · exact ha
      · exact hb
  have hne : hc ≠ [] := by
    rcases hform with ⟨a, rfl, _⟩ | ⟨a, b, rfl, _, _⟩ <;> simp
  have e1 : spaces1 (' ' :: (hc ++ (':' :: (render2 minute ++ (' ' :: ampmChars pm))))) =
      some (hc ++ (':' :: (render2 minute ++ (' ' :: ampmChars pm)))) := by
    rw [spaces1, if_pos (show isSpaceChar ' ' = true from rfl)]
    rw [dropWhile_head_false _ _ (head_append_digit _ _ hne hdig)]
  simp only [e1]
  have e2 : matchHourColon (hc ++ (':' :: (render2 minute ++ (' ' :: ampmChars pm)))) =
      some (digitsToNat hc, render2 minute ++ (' ' :: ampmChars pm)) := by
    rcases hform with ⟨a, rfl, ha⟩ | ⟨a, b, rfl, ha, hb⟩
    · rw [List.cons_append, List.nil_append, matchHourColon_one a _ ha, digitsToNat_single]
    · rw [List.cons_append, List.cons_append, List.nil_append,
        matchHourColon_two a b _ ha hb, digitsToNat_pair]
  simp only [e2]
  have e3 : matchTwoDigits (render2 minute ++ (' ' :: ampmChars pm)) =
      some (minute, ' ' :: ampmChars pm) := by
    rw [render2, List.cons_append, List.cons_append, List.nil_append]
    rw [matchTwoDigits_eq _ _ _ (digitChar_isDigit _ (by omega))
      (digitChar_isDigit _ (Nat.mod_lt _ (by omega)))]
    rw [digitVal_digitChar _ (by omega), digitVal_digitChar _ (Nat.mod_lt _ (by omega))]
    have : 10 * (minute / 10) + minute % 10 = minute := by omega
    rw [this]
  simp only [e3]
  have e4 : (' ' :: ampmChars pm).dropWhile isSpaceChar = ampmChars pm := by
    cases pm <;> rfl
  simp only [e4]
  have e5 : matchAmPm (ampmChars pm) = some (pm, []) := by
    cases pm <;> rfl
  simp only [e5]

theorem searchAbsolute_cons_pos (c : Char) (rest : List Char) (r : AbsMatch)
    (h : matchAbsoluteAt (c :: rest) = some r) : searchAbsolute (c :: rest) = some r := by
  rw [searchAbsolute]
  simp only [h]

theorem absoluteNext_spec (w : Int) (hour minute : Nat) (ref : Int)
    (hw0 : 0 ≤ w) (hw7 : w < 7) (hh : hour < 24) (hm : minute < 60) :
    getDayUTC (absoluteNext w hour minute ref) = w ∧
    absoluteNext w hour minute ref - startOfDayUTC (absoluteNext w hour minute ref) =
      wallClockMs hour minute ∧
    ref < absoluteNext w hour minute ref ∧
    absoluteNext w hour minute ref ≤ ref + 7 * msPerDay ∧
    (getDayUTC ref = w → setWallTimeUTC ref hour minute ≤ ref →
      absoluteNext w hour minute ref = setWallTimeUTC ref hour minute + 7 * msPerDay) := by
  have hwall0 : (0 : Int) ≤ wallClockMs hour minute := by
    unfold wallClockMs
    positivity
  have hwall1 : wallClockMs hour minute < msPerDay := by
    unfold wallClockMs msPerDay
    have : (hour * 3600 + minute * 60) * 1000 ≤ (23 * 3600 + 59 * 60) * 1000 := by
      have h1 : hour ≤ 23 := by omega
      have h2 : minute ≤ 59 := by omega
      nlinarith
    calc (((hour * 3600 + minute * 60) * 1000 : Nat) : Int)
        ≤ (((23 * 3600 + 59 * 60) * 1000 : Nat) : Int) := by exact_mod_cast this
      _ < 86400000 := by norm_num
  unfold absoluteNext getDayUTC setWallTimeUTC at *
  unfold startOfDayUTC at *
  unfold msPerDay at *
  generalize hW : wallClockMs hour minute = W at *
  dsimp only
  refine ⟨?_, ?_, ?_, ?_, ?_⟩ <;> split_ifs <;> omega

theorem searchAbsolute_grammar (c1 c2 c3 : Char) (h1 : c1.isAlpha = true)
    (h2 : c2.isAlpha = true) (h3 : c3.isAlpha = true) (H : List Char)
    (hform : (∃ a, H = [a] ∧ a.isDigit = true) ∨
      (∃ a b, H = [a, b] ∧ a.isDigit = true ∧ b.isDigit = true))
    (minute : Nat) (hm100 : minute < 100) (pm : Bool) :
    searchAbsolute ([c1, c2, c3] ++ ([' '] ++ (H ++ ([':'] ++
        (render2 minute ++ ([' '] ++ ampmChars pm)))))) =
      some ⟨[c1, c2, c3], digitsToNat H, minute, pm⟩ := by
  have e := matchAbsoluteAt_grammar c1 c2 c3 h1 h2 h3 H hform minute hm100 pm
  have hl : [c1, c2, c3] ++ ([' '] ++ (H ++ ([':'] ++
        (render2 minute ++ ([' '] ++ ampmChars pm))))) =
      c1 :: c2 :: c3 :: ' ' :: (H ++ (':' :: (render2 minute ++ (' ' :: ampmChars pm)))) := by
    simp
  rw [hl]
  exact searchAbsolute_cons_pos _ _ _ e

theorem weekdayName_shape (w : Nat) (hw : w < 7) :
    ∃ c1 c2 c3, weekdayName w = [c1, c2, c3] ∧ c1.isAlpha = true ∧ c2.isAlpha = true ∧
      c3.isAlpha = true ∧ dayMapLookup [c1, c2, c3] = some (w : Int) := by
  interval_cases w <;> exact ⟨_, _, _, rfl, by decide, by decide, by decide, by decide⟩

/-- C4.  Every string of the absolute grammar `<Weekday> HH:MM AM|PM`
(canonical rendering, hour optionally zero-padded) parses to the next
occurrence of that weekday and wall-clock time strictly after the reference:
the result has the named weekday and the converted 24-hour wall time, lies
strictly after the reference and at most 7 days after it, and when the target
weekday equals the reference's weekday with the wall time at or before the
reference, the result is exactly that wall time plus 7 days. -/
theorem absoluteResetParse (w h12 minute : Nat) (pad pm : Bool) (ref : Int)
    (hw : w < 7) (hl : 1 ≤ h12) (hh : h12 ≤ 12) (hm : minute < 60) :
    parseResetTime (some (mkAbsoluteStr w pad h12 minute pm)) ref =
      some (absoluteNext (w : Int) (hourTo24 pm h12) minute ref) ∧
    getDayUTC (absoluteNext (w : Int) (hourTo24 pm h12) minute ref) = (w : Int) ∧
    absoluteNext (w : Int) (hourTo24 pm h12) minute ref -
      startOfDayUTC (absoluteNext (w : Int) (hourTo24 pm h12) minute ref) =
      wallClockMs (hourTo24 pm h12) minute ∧
    ref < absoluteNext (w : Int) (hourTo24 pm h12) minute ref ∧
    absoluteNext (w : Int) (hourTo24 pm h12) minute ref ≤ ref + 7 * msPerDay ∧
    (getDayUTC ref = (w : Int) → setWallTimeUTC ref (hourTo24 pm h12) minute ≤ ref →
      absoluteNext (w : Int) (hourTo24 pm h12) minute ref =
        setWallTimeUTC ref (hourTo24 pm h12) minute + 7 * msPerDay) := by
  have hh24 : hourTo24 pm h12 < 24 := by
    unfold hourTo24
    split_ifs <;> omega
  have spec := absoluteNext_spec (w : Int) (hourTo24 pm h12) minute ref
    (by exact_mod_cast Nat.zero_le w) (by exact_mod_cast hw) hh24 hm
  refine ⟨?_, spec.1, spec.2.1, spec.2.2.1, spec.2.2.2.1, spec.2.2.2.2⟩
  have hHdig : ∀ c ∈ (if pad then render2 h12 else renderNat h12), c.isDigit = true := by
    cases pad
    · simpa using renderNat_digits h12
    · simpa using render2_digits h12 (by omega)
  have hHform : (∃ a, (if pad then render2 h12 else renderNat h12) = [a] ∧ a.isDigit = true) ∨
      (∃ a b, (if pad then render2 h12 else renderNat h12) = [a, b] ∧ a.isDigit = true ∧
        b.isDigit = true) := by
    cases pad
    · simp only [if_false, Bool.false_eq_true]
      by_cases h10 : h12 < 10
      · exact Or.inl ⟨digitChar h12, renderNat_small h12 h10, digitChar_isDigit _ h10⟩
      · refine Or.inr ⟨digitChar (h12 / 10), digitChar (h12 % 10), ?_, ?_, ?_⟩
        · rw [renderNat_mid h12 (by omega) (by omega)]
          rfl
        · exact digitChar_isDigit _ (by omega)
        · exact digitChar_isDigit _ (Nat.mod_lt _ (by omega))
    · exact Or.inr ⟨digitChar (h12 / 10), digitChar (h12 % 10), rfl,
        digitChar_isDigit _ (by omega), digitChar_isDigit _ (Nat.mod_lt _ (by omega))⟩
  have hHval : digitsToNat (if pad then render2 h12 else renderNat h12) = h12 := by
    cases pad
    · simpa using digitsToNat_renderNat h12
    · simpa using digitsToNat_render2 h12 (by omega)
  have hdata : (mkAbsoluteStr w pad h12 minute pm).data =
      weekdayName w ++ ([' '] ++ ((if pad then render2 h12 else renderNat h12) ++ ([':'] ++
        (render2 minute ++ ([' '] ++ ampmChars pm))))) := by
    show weekdayName w ++ [' '] ++ (if pad then render2 h12 else renderNat h12) ++ [':'] ++
      render2 minute ++ [' '] ++ ampmChars pm = _
    simp [List.append_assoc]
  obtain ⟨c1, c2, c3, hname, ha1, ha2, ha3, hlook⟩ := weekdayName_shape w hw
  have hwne : mkAbsoluteStr w pad h12 minute pm ≠ "" := by
    intro he
    have hd := congrArg String.data he
    rw [hdata, hname] at hd
    simp at hd
  rw [parseResetTime, if_neg hwne, hdata]
  rw [searchRelative_none_of_chain _ (chainNoIN_abs w hw _ (render2 minute) hHdig
    (render2_digits minute (by omega)) pm)]
  rw [hname]
  rw [searchAbsolute_grammar c1 c2 c3 ha1 ha2 ha3 _ hHform minute (by omega) pm]
  simp only [hlook, hHval]

/-- Witness for C4: reference Wednesday 2024-01-03 10:00 (1704276000000 ms)
with reset string `"Wed 09:00 AM"`; since 09:00 has already passed that day,
the computed instant is the following Wednesday 09:00 (1704877200000 ms), that
is, that day's 09:00 plus seven days. -/
theorem absoluteResetParseWitness :
    mkAbsoluteStr 3 true 9 0 false = strWed9am ∧
    getDayUTC 1704276000000 = 3 ∧
    parseResetTime (some (mkAbsoluteStr 3 true 9 0 false)) 1704276000000 =
      some 1704877200000 ∧
    (1704877200000 : Int) = setWallTimeUTC 1704276000000 9 0 + 7 * msPerDay := by
  refine ⟨by decide, by decide, ?_, by decide⟩
  have h := absoluteResetParse 3 9 0 true false 1704276000000
    (by decide) (by decide) (by decide) (by decide)
  rw [h.1]
  decide

/-! ### C7: the backfill pass is idempotent -/

theorem hasSyntheticNear_append (db e : List UsageRow) (aid : String) (rt : Int)
    (h : hasSyntheticNear db aid rt = true) : hasSyntheticNear (db ++ e) aid rt = true := by
  unfold hasSyntheticNear at *
  rw [List.any_append, h]
  rfl

theorem guardOK_append (db e : List UsageRow) (p c : UsageRow) (h : guardOK db p c) :
    guardOK (db ++ e) p c :=
  fun pp cp rt h1 h2 h3 h4 h5 => hasSyntheticNear_append db e _ _ (h pp cp rt h1 h2 h3 h4 h5)

theorem backfillStep_eq_detect (db : List UsageRow) (p c : UsageRow) (pp cp : Rat)
    (h1 : (p.accountId == c.accountId) = true)
    (hp : p.weeklyAllPercent = some pp) (hc : c.weeklyAllPercent = some cp) :
    backfillStep db p c = backfillDetect db p c pp cp := by
  unfold backfillStep
  rw [if_pos h1, hp, hc]

theorem backfillDetect_eq_insert (db : List UsageRow) (p c : UsageRow) (pp cp : Rat)
    (rt : Int) (h4 : pp - cp > 5) (hrt : parseResetTime p.weeklyReset p.timestamp = some rt) :
    backfillDetect db p c pp cp = backfillInsertPair db p c pp rt := by
  unfold backfillDetect
  rw [if_pos h4, hrt]

theorem backfillStep_extends (db : List UsageRow) (p c : UsageRow) :
    ∃ e, (backfillStep db p c).1 = db ++ e ∧ ∀ r ∈ e, r.isSynthetic = true := by
  unfold backfillStep
  by_cases h1 : (p.accountId == c.accountId) = true
  · rw [if_pos h1]
    cases hp : p.weeklyAllPercent with
    | none => exact ⟨[], by simp, by simp⟩
    | some pp =>
      cases hc : c.weeklyAllPercent with
      | none => exact ⟨[], by simp, by simp⟩
      | some cp =>
        show ∃ e, (backfillDetect db p c pp cp).1 = db ++ e ∧ ∀ r ∈ e, r.isSynthetic = true
        unfold backfillDetect
        by_cases h4 : pp - cp > 5
        · rw [if_pos h4]
          cases hrt : parseResetTime p.weeklyReset p.timestamp with
          | none => exact ⟨[], by simp, by simp⟩
          | some rt =>
            show ∃ e, (backfillInsertPair db p c pp rt).1 = db ++ e ∧
              ∀ r ∈ e, r.isSynthetic = true
            unfold backfillInsertPair
            by_cases h5 : hasSyntheticNear db c.accountId rt
            · rw [if_pos h5]
              exact ⟨[], by simp, by simp⟩
            · rw [if_neg h5]
              refine ⟨_, rfl, ?_⟩
              intro r hr
              rcases List.mem_pair.mp hr with hr | hr <;> subst hr <;> rfl
        · rw [if_neg h4]
          exact ⟨[], by simp, by simp⟩
  · rw [if_neg h1]
    exact ⟨[], by simp, by simp⟩

theorem backfillLoop_extends (rows : List UsageRow) :
    ∀ (db : List UsageRow) (prev : Option UsageRow),
      ∃ e, (backfillLoop db prev rows).1 = db ++ e ∧ ∀ r ∈ e, r.isSynthetic = true := by
  induction rows with
  | nil => intro db prev; exact ⟨[], by simp [backfillLoop], by simp⟩
  | cons c rest ih =>
    intro db prev
    cases prev with
    | none => exact ih db (some c)
    | some p =>
      obtain ⟨e1, he1, hs1⟩ := backfillStep_extends db p c
      obtain ⟨e2, he2, hs2⟩ := ih (backfillStep db p c).1 (some c)
      refine ⟨e1 ++ e2, ?_, ?_⟩
      · show (backfillLoop (backfillStep db p c).1 (some c) rest).1 = db ++ (e1 ++ e2)
        rw [he2, he1, List.append_assoc]
      · intro r hr
        rcases List.mem_append.mp hr with hr | hr
        · exact hs1 r hr
        · exact hs2 r hr

theorem backfillLoop_establishes (rows : List UsageRow) :
    ∀ (db : List UsageRow) (prev : Option UsageRow),
      pairsOK (backfillLoop db prev rows).1 prev rows := by
  induction rows with
  | nil => intro db prev; cases prev <;> trivial
  | cons c rest ih =>
    intro db prev
    cases prev with
    | none =>
      show pairsOK (backfillLoop db (some c) rest).1 (some c) rest
      exact ih db (some c)
    | some p =>
      refine ⟨?_, ?_⟩
      · obtain ⟨e2, he2, _⟩ := backfillLoop_extends rest (backfillStep db p c).1 (some c)
        have hg : guardOK (backfillStep db p c).1 p c := by
          intro pp cp rt h1 h2 h3 h4 h5
          rw [backfillStep_eq_detect db p c pp cp (by simp [h1]) h2 h3,
            backfillDetect_eq_insert db p c pp cp rt h4 h5]
          unfold backfillInsertPair
          by_cases hg2 : hasSyntheticNear db c.accountId rt
          · rw [if_pos hg2]
            exact hg2
          · rw [if_neg hg2]
            show hasSyntheticNear (db ++ _) c.accountId rt = true
            unfold hasSyntheticNear
            rw [List.any_append]
            have hpair : (([syntheticPoint c.accountId rt p.primaryPercent p.sessionPercent
                (some pp) p.weeklySonnetPercent,
                syntheticPoint c.accountId (rt + 1000) (some 0) (some 0) (some 0)
                  (some 0)] : List UsageRow).any (fun r => r.accountId == c.accountId &&
                r.isSynthetic && decide (rt - 60000 ≤ r.timestamp) &&
                decide (r.timestamp ≤ rt + 60000))) = true := by
              simp [syntheticPoint]
            rw [hpair]
            simp
        show guardOK (backfillLoop (backfillStep db p c).1 (some c) rest).1 p c
        intro pp cp rt h1 h2 h3 h4 h5
        rw [he2]
        exact hasSyntheticNear_append _ _ _ _ (hg pp cp rt h1 h2 h3 h4 h5)
      · show pairsOK (backfillLoop (backfillStep db p c).1 (some c) rest).1 (some c) rest
        exact ih (backfillStep db p c).1 (some c)

theorem backfillLoop_noInsert (rows : List UsageRow) :
    ∀ (db : List UsageRow) (prev : Option UsageRow), pairsOK db prev rows →
      backfillLoop db prev rows = (db, 0) := by
  induction rows with
  | nil => intro db prev _; cases prev <;> rfl
  | cons c rest ih =>
    intro db prev h
    cases prev with
    | none =>
      show backfillLoop db (some c) rest = (db, 0)
      exact ih db (some c) h
    | some p =>
      obtain ⟨hg, hrest⟩ := h
      have hstep : backfillStep db p c = (db, 0) := by
        unfold backfillStep
        by_cases h1 : (p.accountId == c.accountId) = true
        · rw [if_pos h1]
          cases hp : p.weeklyAllPercent with
          | none => rfl
          | some pp =>
            cases hc : c.weeklyAllPercent with
            | none => rfl
            | some cp =>
              show backfillDetect db p c pp cp = (db, 0)
              unfold backfillDetect
              by_cases h4 : pp - cp > 5
              · rw [if_pos h4]
                cases hrt : parseResetTime p.weeklyReset p.timestamp with
                | none => rfl
                | some rt =>
                  show backfillInsertPair db p c pp rt = (db, 0)
                  unfold backfillInsertPair
                  rw [if_pos (hg pp cp rt (by simpa using h1) hp hc h4 hrt)]
              · rw [if_neg h4]
        · rw [if_neg h1]
      have hrec := ih db (some c) hrest
      show ((backfillLoop (backfillStep db p c).1 (some c) rest).1,
        (backfillStep db p c).2 + (backfillLoop (backfillStep db p c).1 (some c) rest).2) =
        (db, 0)
      rw [hstep]
      rw [hrec]
      rfl

/-- C7.  Running the offline backfill a second time over the table produced by
a first run inserts zero rows: the scan sees the same non-synthetic readings
(fresh rows are all synthetic), and for every pair that detects a reset with a
parseable reset text a synthetic point within ±60 s of the computed instant
already exists, so the guard skips every insertion. -/
theorem backfillIdempotent (db : List UsageRow) :
    (backfillRun (backfillRun db).1).2 = 0 := by
  obtain ⟨e, he, hsyn⟩ := backfillLoop_extends (backfillScan db) db none
  have hscan : backfillScan (backfillRun db).1 = backfillScan db := by
    show backfillScan (backfillLoop db none (backfillScan db)).1 = _
    rw [he]
    unfold backfillScan
    congr 1
    rw [List.filter_append]
    have hnil : e.filter (fun r => r.isSynthetic == false) = [] := by
      rw [List.filter_eq_nil_iff]
      intro r hr
      simp [hsyn r hr]
    rw [hnil, List.append_nil]
  have hpairs : pairsOK (backfillRun db).1 none (backfillScan db) :=
    backfillLoop_establishes (backfillScan db) db none
  show (backfillLoop (backfillRun db).1 none (backfillScan (backfillRun db).1)).2 = 0
  rw [hscan]
  rw [backfillLoop_noInsert (backfillScan db) (backfillRun db).1 none hpairs]

/-! ### C8: transport failure handling -/

theorem processMessage_one_response (st : HostState) (msg : Msg) (now : Int) :
    (processMessageWrites st msg now).2.length = 1 := by
  cases msg with
  | usageUpdate aid0 data => rfl
  | getData => rfl
  | getHistory a l => rfl
  | reorderAccount a =>
    show (reorderWrites st a).2.length = 1
    unfold reorderWrites
    cases h : falsyToNull a with
    | none => rfl
    | some aid =>
      simp only [h]
      split <;> rfl
  | other => rfl

/-- Counterexample for C8.  An input stream consisting of only a 4-byte length
header (declaring a 10-byte payload that never arrives) ends with no payload
chunk accumulated; `getMessage`'s `end` handler then does nothing, the promise
never settles, and the host writes no response at all — refuting the claim
that no input leaves the caller without a response. -/
theorem truncatedHeaderNoResponse :
    (hostMain ⟨[], []⟩ [[10, 0, 0, 0]] 0).2 = [] := by
  decide

/-- C8 as amended.  Whenever `getMessage` settles — which requires at least
one payload byte to have been accumulated (or a satisfied declared length) —
the host writes exactly one framed response, and a payload that fails to parse
produces exactly the structured failure response; but when the stream ends
before any payload byte arrived, the promise never settles and no response is
written. -/
theorem settledInputSingleResponse (st : HostState) (chunks : List (List Nat)) (now : Int) :
    (∀ bytes, getMessageRun chunks = GetMessageResult.settled bytes →
      (hostMain st chunks now).2.length = 1 ∧
      (decodeMsg bytes = none →
        (hostMain st chunks now).2 = [HostResponse.failure errParse])) ∧
    (getMessageRun chunks = GetMessageResult.neverSettles →
      (hostMain st chunks now).2 = []) := by
  constructor
  · intro bytes hset
    unfold hostMain
    simp only [hset]
    constructor
    · cases hdec : decodeMsg bytes with
      | none => simp only [hdec]; rfl
      | some msg =>
        simp only [hdec]
        show (processMessage st msg now).2.length = 1
        exact processMessage_one_response st msg now
    · intro hdec
      simp only [hdec]
  · intro hns
    unfold hostMain
    simp only [hns]

/-- Witness for C8's amended statement: a malformed two-byte JSON payload is
answered by exactly one structured failure response. -/
theorem settledInputSingleResponseWitness :
    getMessageRun [[2, 0, 0, 0], [123, 93]] = GetMessageResult.settled [123, 93] ∧
    decodeMsg [123, 93] = none ∧
    (hostMain ⟨[], []⟩ [[2, 0, 0, 0], [123, 93]] 0).2 = [HostResponse.failure errParse] := by
  refine ⟨by decide, by decide, ?_⟩
  exact ((settledInputSingleResponse ⟨[], []⟩ [[2, 0, 0, 0], [123, 93]] 0).1 [123, 93]
    (by decide)).2 (by decide)

/-! ### C6: reorder-to-front renumbering -/

theorem idxLookupFrom_not_mem (l : List AccountRow) :
    ∀ (k : Int) (x : String), x ∉ l.map (fun a => a.id) → idxLookupFrom k l x = none := by
  induction l with
  | nil => intro k x _; rfl
  | cons b rest ih =>
    intro k x hx
    rw [idxLookupFrom, if_neg (fun he => hx (by simp [he.symm]))]
    exact ih (k + 1) x (fun hm => hx (by simp [hm]))

theorem idxLookupFrom_mem (l : List AccountRow) :
    ∀ (k : Int) (x : String), x ∈ l.map (fun a => a.id) →
      idxLookupFrom k l x = some (k + ((l.map (fun a => a.id)).indexOf x : Int)) := by
  induction l with
  | nil => intro k x hx; simp at hx
  | cons b rest ih =>
    intro k x hx
    rw [idxLookupFrom]
    by_cases hb : b.id = x
    · rw [if_pos hb]
      rw [List.map_cons, List.indexOf_cons]
      simp [hb]
    · rw [if_neg hb]
      have hx2 : x ∈ rest.map (fun a => a.id) := by
        simp only [List.map_cons, List.mem_cons] at hx
        rcases hx with h | h
        · exact absurd h.symm hb
        · exact h
      rw [ih (k + 1) x hx2]
      rw [List.map_cons, List.indexOf_cons]
      have hne2 : (b.id == x) = false := by simpa using hb
      rw [hne2]
      simp
      omega

theorem idxLookupFrom_zero (l : List AccountRow) (x : String)
    (hx : x ∈ l.map (fun a => a.id)) :
    idxLookupFrom 0 l x = some ((l.map (fun a => a.id)).indexOf x : Int) := by
  rw [idxLookupFrom_mem l 0 x hx, zero_add]

theorem applyWrites_numberFrom (l : List AccountRow) :
    ∀ (k : Int) (accounts : List AccountRow) (usage : List UsageRow),
      (l.map (fun a => a.id)).Nodup →
      List.foldl applyWrite ⟨accounts, usage⟩ (numberFrom k l) =
        ⟨accounts.map (fun a =>
          { a with sortOrder := (idxLookupFrom k l a.id).getD a.sortOrder }), usage⟩ := by
  induction l with
  | nil =>
    intro k accounts usage _
    show (⟨accounts, usage⟩ : HostState) = _
    congr 1
    exact ((List.map_congr_left (fun a _ => rfl)).trans (List.map_id accounts)).symm
  | cons b rest ih =>
    intro k accounts usage hnd
    rw [numberFrom, List.foldl_cons]
    have hstep : applyWrite ⟨accounts, usage⟩ (DbWrite.setSortOrder k b.id) =
        ⟨accounts.map (fun a => if a.id == b.id then { a with sortOrder := k } else a),
          usage⟩ := rfl
    rw [hstep]
    rw [List.map_cons, List.nodup_cons] at hnd
    rw [ih (k + 1) _ usage hnd.2]
    congr 1
    rw [List.map_map]
    refine List.map_congr_left (fun a ha => ?_)
    dsimp only [Function.comp]
    by_cases hab : a.id = b.id
    · rw [if_pos (by simpa using hab)]
      have hlook : idxLookupFrom (k + 1) rest a.id = none :=
        idxLookupFrom_not_mem rest (k + 1) a.id (by rw [hab]; exact hnd.1)
      dsimp only
      rw [hlook, idxLookupFrom, if_pos hab.symm]
      rfl
    · rw [if_neg (by simpa using hab)]
      rw [idxLookupFrom, if_neg (fun he => hab he.symm)]

theorem nodupIndexSelf (l : List String) (h : l.Nodup) :
    l.map (fun x => ((l.indexOf x : Nat) : Int)) =
      (List.range l.length).map (fun n : Nat => (n : Int)) := by
  apply List.ext_getElem
  · rw [List.length_map, List.length_map, List.length_range]
  · intro i h1 h2
    rw [List.getElem_map, List.getElem_map, List.getElem_range, List.indexOf_getElem h]

theorem reorderCore (accounts : List AccountRow) (usage : List UsageRow)
    (disp : List AccountRow) (aid : String) (ti : Nat) (hti : ti < disp.length)
    (hperm : disp.Perm accounts)
    (hnd : (accounts.map (fun a => a.id)).Nodup)
    (htid : (disp.get ⟨ti, hti⟩).id = aid) :
    ((List.foldl applyWrite ⟨accounts, usage⟩
        (numberFrom 0 (disp.get ⟨ti, hti⟩ ::
          (disp.take ti ++ disp.drop (ti + 1))))).accounts.map (fun a => a.id)
      = accounts.map (fun a => a.id)) ∧
    (∀ a ∈ (List.foldl applyWrite (⟨accounts, usage⟩ : HostState)
        (numberFrom 0 (disp.get ⟨ti, hti⟩ ::
          (disp.take ti ++ disp.drop (ti + 1))))).accounts,
      (a.id = aid → a.sortOrder = 0) ∧
      (a.id ≠ aid → a.sortOrder =
        1 + (((disp.map (fun b => b.id)).filter (fun x => x ≠ aid)).indexOf a.id : Int))) ∧
    ((List.foldl applyWrite (⟨accounts, usage⟩ : HostState)
        (numberFrom 0 (disp.get ⟨ti, hti⟩ ::
          (disp.take ti ++ disp.drop (ti + 1))))).accounts.map (fun a => a.sortOrder)).Perm
      ((List.range accounts.length).map (fun n : Nat => (n : Int))) := by
  have hsplit : disp = disp.take ti ++ disp.get ⟨ti, hti⟩ :: disp.drop (ti + 1) := by
    conv_lhs => rw [← List.take_append_drop ti disp]
    rw [List.drop_eq_getElem_cons hti]
    rfl
  have hpr : (disp.get ⟨ti, hti⟩ :: (disp.take ti ++ disp.drop (ti + 1))).Perm disp := by
    conv_rhs => rw [hsplit]
    exact List.perm_middle.symm
  have hids : ((disp.get ⟨ti, hti⟩ :: (disp.take ti ++ disp.drop (ti + 1))).map
      (fun a => a.id)).Perm (accounts.map (fun a => a.id)) := (hpr.trans hperm).map _
  have hndr : ((disp.get ⟨ti, hti⟩ :: (disp.take ti ++ disp.drop (ti + 1))).map
      (fun a => a.id)).Nodup := hids.nodup_iff.mpr hnd
  have hdispids : disp.map (fun a => a.id) =
      (disp.take ti).map (fun a => a.id) ++
        aid :: (disp.drop (ti + 1)).map (fun a => a.id) := by
    conv_lhs => rw [hsplit]
    rw [List.map_append, List.map_cons]
    rw [htid]
  have hnddisp : (disp.map (fun a => a.id)).Nodup := ((hperm.map _).nodup_iff).mpr hnd
  have hnd2 : ((disp.take ti).map (fun a => a.id) ++
      aid :: (disp.drop (ti + 1)).map (fun a => a.id)).Nodup := by
    rw [← hdispids]
    exact hnddisp
  rw [List.nodup_append] at hnd2
  have haidtake : aid ∉ (disp.take ti).map (fun a => a.id) :=
    fun hm => hnd2.2.2 hm (List.mem_cons_self _ _)
  have haiddrop : aid ∉ (disp.drop (ti + 1)).map (fun a => a.id) :=
    (List.nodup_cons.mp hnd2.2.1).1
  have hfil : (disp.map (fun b => b.id)).filter (fun x => x ≠ aid) =
      (disp.take ti ++ disp.drop (ti + 1)).map (fun a => a.id) := by
    rw [hdispids, List.filter_append, List.filter_cons, List.map_append]
    have h1 : ((disp.take ti).map (fun a => a.id)).filter (fun x => x ≠ aid) =
        (disp.take ti).map (fun a => a.id) :=
      List.filter_eq_self.mpr (fun x hx => by
        have hxne : x ≠ aid := fun he => haidtake (he ▸ hx)
        simpa using hxne)
    have h2 : ((disp.drop (ti + 1)).map (fun a => a.id)).filter (fun x => x ≠ aid) =
        (disp.drop (ti + 1)).map (fun a => a.id) :=
      List.filter_eq_self.mpr (fun x hx => by
        have hxne : x ≠ aid := fun he => haiddrop (he ▸ hx)
        simpa using hxne)
    rw [h1, h2, if_neg (by simp)]
  rw [applyWrites_numberFrom _ 0 accounts usage hndr]
  dsimp only
  refine ⟨?_, ?_, ?_⟩
  · rw [List.map_map]
    exact List.map_congr_left (fun a _ => rfl)
  · intro a ha
    rcases List.mem_map.mp ha with ⟨a0, ha0, rfl⟩
    have hm : a0.id ∈ (disp.get ⟨ti, hti⟩ :: (disp.take ti ++ disp.drop (ti + 1))).map
        (fun a => a.id) := hids.mem_iff.mpr (List.mem_map_of_mem _ ha0)
    refine ⟨fun hid => ?_, fun hid => ?_⟩
    · have hid2 : a0.id = aid := hid
      show (idxLookupFrom 0 (disp.get ⟨ti, hti⟩ ::
          (disp.take ti ++ disp.drop (ti + 1))) a0.id).getD a0.sortOrder = 0
      rw [idxLookupFrom_zero _ _ hm]
      show ((((disp.get ⟨ti, hti⟩ :: (disp.take ti ++ disp.drop (ti + 1))).map
          (fun a => a.id)).indexOf a0.id : Nat) : Int) = 0
      rw [List.map_cons]
      rw [htid, hid2, List.indexOf_cons_self]
      rfl
    · have hid2 : a0.id ≠ aid := hid
      show (idxLookupFrom 0 (disp.get ⟨ti, hti⟩ ::
          (disp.take ti ++ disp.drop (ti + 1))) a0.id).getD a0.sortOrder =
        1 + (((disp.map (fun b => b.id)).filter (fun x => x ≠ aid)).indexOf a0.id : Int)
      rw [idxLookupFrom_zero _ _ hm, hfil]
      show ((((disp.get ⟨ti, hti⟩ :: (disp.take ti ++ disp.drop (ti + 1))).map
          (fun a => a.id)).indexOf a0.id : Nat) : Int) =
        1 + (((disp.take ti ++ disp.drop (ti + 1)).map (fun a => a.id)).indexOf a0.id : Int)
      rw [List.map_cons]
      rw [htid, List.indexOf_cons]
      have hbe : (aid == a0.id) = false := by simpa using fun he => hid2 he.symm
      rw [hbe]
      simp only [Bool.cond_false]
      omega
  · have e1 : (accounts.map (fun b =>
        { b with sortOrder := (idxLookupFrom 0 (disp.get ⟨ti, hti⟩ ::
            (disp.take ti ++ disp.drop (ti + 1))) b.id).getD b.sortOrder })).map
          (fun a => a.sortOrder)
        = (accounts.map (fun a => a.id)).map
            (fun x => ((((disp.get ⟨ti, hti⟩ :: (disp.take ti ++ disp.drop (ti + 1))).map
              (fun b => b.id)).indexOf x : Nat) : Int)) := by
      rw [List.map_map, List.map_map]
      refine List.map_congr_left (fun a ha => ?_)
      have hm : a.id ∈ (disp.get ⟨ti, hti⟩ :: (disp.take ti ++ disp.drop (ti + 1))).map
          (fun b => b.id) := hids.mem_iff.mpr (List.mem_map_of_mem _ ha)
      dsimp only [Function.comp]
      rw [idxLookupFrom_zero _ _ hm]
      rfl
    rw [e1]
    have hlen : ((disp.get ⟨ti, hti⟩ :: (disp.take ti ++ disp.drop (ti + 1))).map
        (fun b => b.id)).length = accounts.length := by
      simpa using hids.length_eq
    have h2 := nodupIndexSelf ((disp.get ⟨ti, hti⟩ ::
        (disp.take ti ++ disp.drop (ti + 1))).map (fun b => b.id)) hndr
    rw [hlen] at h2
    rw [← h2]
    exact hids.symm.map _

/-- C6.  A `REORDER_ACCOUNT` message naming an existing account (accounts
having distinct, nonempty ids) renumbers every account in one transaction:
the stored ids are unchanged, the named account receives `sort_order` 0,
every other account receives `1 +` its position among the remaining accounts
in the previous display order (so their relative order is preserved), the
multiset of `sort_order` values becomes exactly `0 .. N-1`, and the host
replies with the single success response. -/
theorem reorderRenumbering (st : HostState) (aid : String) (now : Int)
    (hne : aid ≠ "")
    (hnd : (st.accounts.map (fun a => a.id)).Nodup)
    (hmem : aid ∈ st.accounts.map (fun a => a.id)) :
    ((processMessage st (Msg.reorderAccount (some aid)) now).1.accounts.map (fun a => a.id)
        = st.accounts.map (fun a => a.id)) ∧
    (∀ a ∈ (processMessage st (Msg.reorderAccount (some aid)) now).1.accounts,
        (a.id = aid → a.sortOrder = 0) ∧
        (a.id ≠ aid → a.sortOrder =
          1 + ((((getAllAccounts st.accounts).map (fun b => b.id)).filter
                  (fun x => x ≠ aid)).indexOf a.id : Int))) ∧
    (((processMessage st (Msg.reorderAccount (some aid)) now).1.accounts.map
        (fun a => a.sortOrder)).Perm
      ((List.range st.accounts.length).map (fun n : Nat => (n : Int)))) ∧
    ((processMessage st (Msg.reorderAccount (some aid)) now).2
        = [HostResponse.reorderOk aid]) := by
  have hperm : (getAllAccounts st.accounts).Perm st.accounts := sortBy_perm _ _
  have hmem2 : aid ∈ (getAllAccounts st.accounts).map (fun a => a.id) :=
    ((hperm.map _).mem_iff).mpr hmem
  have hex : ∃ a ∈ getAllAccounts st.accounts, a.id == aid := by
    rcases List.mem_map.mp hmem2 with ⟨a, ha, hid⟩
    exact ⟨a, ha, by simp [hid]⟩
  have hti : (getAllAccounts st.accounts).findIdx (fun a => a.id == aid)
      < (getAllAccounts st.accounts).length := List.findIdx_lt_length_of_exists hex
  have htidb := @List.findIdx_getElem AccountRow (fun a => a.id == aid)
    (getAllAccounts st.accounts) hti
  have htid : ((getAllAccounts st.accounts).get
      ⟨(getAllAccounts st.accounts).findIdx (fun a => a.id == aid), hti⟩).id = aid := by
    simpa using htidb
  have hf : falsyToNull (some aid) = some aid := by
    show (if aid = "" then none else some aid) = some aid
    rw [if_neg hne]
  have hpmw : processMessageWrites st (Msg.reorderAccount (some aid)) now =
      ([numberFrom 0 ((getAllAccounts st.accounts).get
          ⟨(getAllAccounts st.accounts).findIdx (fun a => a.id == aid), hti⟩ ::
        ((getAllAccounts st.accounts).take
            ((getAllAccounts st.accounts).findIdx (fun a => a.id == aid)) ++
          (getAllAccounts st.accounts).drop
            ((getAllAccounts st.accounts).findIdx (fun a => a.id == aid) + 1)))],
        [HostResponse.reorderOk aid]) := by
    show reorderWrites st (some aid) = _
    simp only [reorderWrites, hf]
    rw [dif_pos hti]
  have hpm1 : (processMessage st (Msg.reorderAccount (some aid)) now).1 =
      List.foldl applyWrite ⟨st.accounts, st.usage⟩
        (numberFrom 0 ((getAllAccounts st.accounts).get
          ⟨(getAllAccounts st.accounts).findIdx (fun a => a.id == aid), hti⟩ ::
        ((getAllAccounts st.accounts).take
            ((getAllAccounts st.accounts).findIdx (fun a => a.id == aid)) ++
          (getAllAccounts st.accounts).drop
            ((getAllAccounts st.accounts).findIdx (fun a => a.id == aid) + 1)))) := by
    show ((processMessageWrites st (Msg.reorderAccount (some aid)) now).1.foldl
        applyBatch st) = _
    rw [hpmw]
    rfl
  have hpm2 : (processMessage st (Msg.reorderAccount (some aid)) now).2
      = [HostResponse.reorderOk aid] := by
    show (processMessageWrites st (Msg.reorderAccount (some aid)) now).2 = _
    rw [hpmw]
  have hcore := reorderCore st.accounts st.usage (getAllAccounts st.accounts) aid
    ((getAllAccounts st.accounts).findIdx (fun a => a.id == aid)) hti hperm hnd htid
  refine ⟨?_, ?_, ?_, hpm2⟩
  · rw [hpm1]
    exact hcore.1
  · rw [hpm1]
    exact hcore.2.1
  · rw [hpm1]
    exact hcore.2.2

/-- Witness for C6 at the spec's four-account example: accounts A,B,C,D at
sort order 0,1,2,3; reordering C yields display order C,A,B,D with sort
orders 0..3 (stored as A:1, B:2, C:0, D:3), unchanged ids, and the single
success response. -/
theorem reorderRenumberingWitness :
    ((processMessage stABCD (Msg.reorderAccount (some strIdC)) 0).1.accounts.map
        (fun a => (a.id, a.sortOrder))
      = [(strIdA, 1), (strIdB, 2), (strIdC, 0), (strIdD, 3)]) ∧
    ((processMessage stABCD (Msg.reorderAccount (some strIdC)) 0).1.accounts.map
        (fun a => a.id) = stABCD.accounts.map (fun a => a.id)) ∧
    (processMessage stABCD (Msg.reorderAccount (some strIdC)) 0).2
        = [HostResponse.reorderOk strIdC] :=
  ⟨by decide,
    (reorderRenumbering stABCD strIdC 0 (by decide) (by decide) (by decide)).1,
    (reorderRenumbering stABCD strIdC 0 (by decide) (by decide) (by decide)).2.2.2⟩
